import Mathlib

/-!
Verification of the MathPWA numeric core.

This development gives a shallow embedding of the computational core of the
MathPWA scientific-calculator repository:

* `src/utils/statistics.ts` — descriptive statistics, combinatorics and the
  normal-distribution approximations;
* `src/utils/math-engine.ts` — the expression normalizer
  (`preprocessExpression`), the evaluation adapter (`evaluate`,
  `getUserFriendlyError`) and the math-engine flavoured combinatorics that
  delegate to the mathjs library;
* `src/utils/graphing.ts` — the function sampler `evaluateFunction`.

JavaScript numbers are idealized as exact rationals (`ℚ`) extended with the
IEEE special values (`JSNum`); real-valued library functions (`Math.sin`,
`Math.sqrt`, `Math.log`, …) are idealized as their exact counterparts on `ℝ`.
The external mathjs expression evaluator is treated as an abstract oracle:
the adapter code around it is embedded faithfully and verified for every
possible oracle behaviour.
-/

namespace MathPWA

/-- A JavaScript number: an exact finite value or one of the IEEE special
values `Infinity`, `-Infinity`, `NaN`. -/
inductive JSNum where
  | fin (q : ℚ)
  | posInf
  | negInf
  | nan
  deriving DecidableEq, Repr

/-- The `Number.isFinite` test. -/
def JSNum.isFinite : JSNum → Bool
  | .fin _ => true
  | _ => false

/-! ## Descriptive statistics (`src/utils/statistics.ts`)

The dataset is a list of (idealized) numbers.  All functions are total and
return `0` / `[]` on the empty dataset, exactly as the source does. -/

/-- `calculateMean` from `statistics.ts`: `0` for the empty dataset, else
`values.reduce((sum, val) => sum + val, 0) / values.length`. -/
def calculateMean (values : List ℚ) : ℚ :=
  if values = [] then 0
  else (values.foldl (· + ·) 0) / (values.length : ℚ)

/-- Insertion of one value into a sorted list; used to model the ascending
numeric sort `[...values].sort((a, b) => a - b)` of the source (on the lists
sorted here the comparison-sort result is exactly the ascending ordering). -/
def sortAsc (l : List ℚ) : List ℚ := l.insertionSort (· ≤ ·)

/-- `calculateMedian` from `statistics.ts`: middle element of the ascending
sort for odd length, average of the two middle elements for even length. -/
def calculateMedian (values : List ℚ) : ℚ :=
  if values = [] then 0
  else
    let sorted := sortAsc values
    let mid := sorted.length / 2
    if sorted.length % 2 = 0 then
      (sorted.getD (mid - 1) 0 + sorted.getD mid 0) / 2
    else sorted.getD mid 0

/-- Lookup in an association list, modelling `Map.get`. -/
def assocLookup (k : ℚ) : List (ℚ × ℕ) → Option ℕ
  | [] => none
  | (k', c) :: t => if k' = k then some c else assocLookup k t

/-- Update of an association list, modelling `Map.set`: an existing key keeps
its position (JS `Map` preserves insertion order), a new key is appended. -/
def assocSet (k : ℚ) (v : ℕ) : List (ℚ × ℕ) → List (ℚ × ℕ)
  | [] => [(k, v)]
  | (k', v') :: t => if k' = k then (k, v) :: t else (k', v') :: assocSet k v t

/-- The counting loop of `calculateMode`: walks the dataset keeping the
occurrence map and the running maximum count. -/
def modeScan : List ℚ → List (ℚ × ℕ) → ℕ → List (ℚ × ℕ) × ℕ
  | [], counts, maxCount => (counts, maxCount)
  | v :: rest, counts, maxCount =>
    let c := (assocLookup v counts).getD 0 + 1
    modeScan rest (assocSet v c counts) (max maxCount c)

/-- `calculateMode` from `statistics.ts`: every value achieving the maximum
occurrence count, ascending; empty when all values are distinct and there is
more than one of them. -/
def calculateMode (values : List ℚ) : List ℚ :=
  if values = [] then []
  else if (modeScan values [] 0).2 = 1 ∧ 1 < values.length then []
  else sortAsc (((modeScan values [] 0).1.filter
      (fun e => e.2 = (modeScan values [] 0).2)).map Prod.fst)

/-- `calculateVariance` (population variance) from `statistics.ts`. -/
def calculateVariance (values : List ℚ) : ℚ :=
  if values = [] then 0
  else
    let mean := calculateMean values
    ((values.map (fun v => (v - mean) ^ 2)).foldl (· + ·) 0) / (values.length : ℚ)

/-- `calculateSampleVariance` from `statistics.ts` (Bessel-corrected). -/
def calculateSampleVariance (values : List ℚ) : ℚ :=
  if values.length ≤ 1 then 0
  else
    let mean := calculateMean values
    ((values.map (fun v => (v - mean) ^ 2)).foldl (· + ·) 0) / ((values.length : ℚ) - 1)

/-- `calculateStdDev` (population) from `statistics.ts`; `Math.sqrt` is
idealized as the exact real square root. -/
noncomputable def calculateStdDev (values : List ℚ) : ℝ :=
  Real.sqrt (calculateVariance values)

/-- `calculateSampleStdDev` from `statistics.ts`. -/
noncomputable def calculateSampleStdDev (values : List ℚ) : ℝ :=
  Real.sqrt (calculateSampleVariance values)

/-- `calculateSum` from `statistics.ts`. -/
def calculateSum (values : List ℚ) : ℚ := values.foldl (· + ·) 0

/-- The `StatisticsData` record returned by `calculateStatistics`. -/
structure StatisticsData where
  values : List ℚ
  mean : ℚ
  median : ℚ
  mode : List ℚ
  stdDev : ℝ
  variance : ℚ
  sum : ℚ
  count : ℕ

/-- `calculateStatistics` from `statistics.ts`. -/
noncomputable def calculateStatistics (values : List ℚ) : StatisticsData :=
  { values := values
    mean := calculateMean values
    median := calculateMedian values
    mode := calculateMode values
    stdDev := calculateStdDev values
    variance := calculateVariance values
    sum := calculateSum values
    count := values.length }

/-! ## Combinatorics (`src/utils/statistics.ts`)

The arguments are idealized JS numbers (`ℚ`); thrown errors are modelled by
`Except.error` carrying the thrown message. -/

/-- The `Number.isInteger` test on an idealized JS number. -/
def isIntegerQ (q : ℚ) : Bool := q.den = 1

/-- Whether an `Except` models a thrown error. -/
def exceptIsError {α β : Type} : Except α β → Bool
  | .error _ => true
  | .ok _ => false

/-- The factorial loop `for (let i = 2; i <= n; i++) result *= i`. -/
def factLoop (n : ℕ) : ℚ :=
  (List.range' 2 (n - 1)).foldl (fun (acc : ℚ) (i : ℕ) => acc * (i : ℚ)) 1

/-- `factorial` from `statistics.ts`: throws on negative or non-integer
input, returns `1` for `0`/`1`, the `Infinity` sentinel above `170`, and the
iterative product otherwise. -/
def statsFactorial (n : ℚ) : Except String JSNum :=
  if n < 0 ∨ ¬ isIntegerQ n then .error "Factorial requires a non-negative integer"
  else if n = 0 ∨ n = 1 then .ok (.fin 1)
  else if 170 < n then .ok .posInf
  else .ok (.fin (factLoop n.num.toNat))

/-- The permutation loop `for (let i = n; i > n - r; i--) result *= i`,
which multiplies the `r` descending factors `n, n-1, …, n-r+1`. -/
def permLoop (n r : ℕ) : ℚ :=
  (List.range r).foldl (fun (acc : ℚ) (i : ℕ) => acc * ((n : ℚ) - (i : ℚ))) 1

/-- `permutations` from `statistics.ts`. -/
def statsPermutations (n r : ℚ) : Except String JSNum :=
  if n < 0 ∨ r < 0 ∨ ¬ isIntegerQ n ∨ ¬ isIntegerQ r then
    .error "nPr requires non-negative integers"
  else if n < r then .ok (.fin 0)
  else if r = 0 then .ok (.fin 1)
  else .ok (.fin (permLoop n.num.toNat r.num.toNat))

/-- The combination loop
`for (let i = 0; i < k; i++) result = (result * (n - i)) / (i + 1)`. -/
def combLoop (n k : ℕ) : ℚ :=
  (List.range k).foldl (fun (acc : ℚ) (i : ℕ) => acc * ((n : ℚ) - (i : ℚ)) / ((i : ℚ) + 1)) 1

/-- `combinations` from `statistics.ts`: domain checks, `0` for `r > n`, `1`
for `r ∈ {0, n}`, otherwise the incremental multiply-then-divide loop over
the smaller of `r` and `n - r`, rounded to the nearest integer
(`Math.round x = ⌊x + 1/2⌋`, which is Lean's `round` on `ℚ`). -/
def statsCombinations (n r : ℚ) : Except String JSNum :=
  if n < 0 ∨ r < 0 ∨ ¬ isIntegerQ n ∨ ¬ isIntegerQ r then
    .error "nCr requires non-negative integers"
  else if n < r then .ok (.fin 0)
  else if r = 0 ∨ r = n then .ok (.fin 1)
  else
    let nn := n.num.toNat
    let rr := r.num.toNat
    let k := if nn - rr < rr then nn - rr else rr
    .ok (.fin ((round (combLoop nn k) : ℤ) : ℚ))

/-! ## Math-engine combinatorics (`src/utils/math-engine.ts`)

These guard the domain exactly like the statistics module and then delegate
to the mathjs library.  The mathjs collaborator functions are idealized as
the exact factorial, falling factorial and binomial coefficient, which is
their documented behaviour on non-negative integer arguments. -/

/-- Idealized `math.factorial` on a non-negative integer. -/
def mathjsFactorial (n : ℕ) : ℚ := (n.factorial : ℚ)

/-- Idealized `math.permutations` on non-negative integers (`n!/(n-r)!`,
i.e. the falling factorial). -/
def mathjsPermutations (n r : ℕ) : ℚ := (n.descFactorial r : ℚ)

/-- Idealized `math.combinations` on non-negative integers. -/
def mathjsCombinations (n r : ℕ) : ℚ := (n.choose r : ℚ)

/-- `factorial` from `math-engine.ts`. -/
def engineFactorial (n : ℚ) : Except String JSNum :=
  if n < 0 ∨ ¬ isIntegerQ n then .error "Factorial requires a non-negative integer"
  else if 170 < n then .ok .posInf
  else .ok (.fin (mathjsFactorial n.num.toNat))

/-- `permutations` from `math-engine.ts`. -/
def enginePermutations (n r : ℚ) : Except String JSNum :=
  if n < 0 ∨ r < 0 ∨ ¬ isIntegerQ n ∨ ¬ isIntegerQ r then
    .error "Permutations require non-negative integers"
  else if n < r then .ok (.fin 0)
  else .ok (.fin (mathjsPermutations n.num.toNat r.num.toNat))

/-- `combinations` from `math-engine.ts`. -/
def engineCombinations (n r : ℚ) : Except String JSNum :=
  if n < 0 ∨ r < 0 ∨ ¬ isIntegerQ n ∨ ¬ isIntegerQ r then
    .error "Combinations require non-negative integers"
  else if n < r then .ok (.fin 0)
  else .ok (.fin (mathjsCombinations n.num.toNat r.num.toNat))

/-! ## Inverse normal CDF (`src/utils/statistics.ts`, Acklam approximation)

The computation is over idealized reals; the coefficient literals are the
exact decimal values written in the source. -/

/-- The fixed lower breakpoint `pLow = 0.02425`. -/
noncomputable def pLow : ℝ := 0.02425

/-- The fixed upper breakpoint `pHigh = 1 - pLow`. -/
noncomputable def pHigh : ℝ := 1 - pLow

/-- The lower-tail branch of Acklam's approximation: the 6/4-coefficient
rational function of `q = sqrt(-2 ln p)`. -/
noncomputable def acklamLower (p : ℝ) : ℝ :=
  let q := Real.sqrt (-2 * Real.log p)
  (((((-7.784894002430293e-3 * q + -3.223964580411365e-1) * q +
      -2.400758277161838) * q + -2.549732539343734) * q +
      4.374664141464968) * q + 2.938163982698783) /
    ((((7.784695709041462e-3 * q + 3.224671290700398e-1) * q +
      2.445134137142996) * q + 3.754408661907416) * q + 1)

/-- The central branch of Acklam's approximation: the 6/5-coefficient
rational function of `q = p - 0.5` (with `r = q²`). -/
noncomputable def acklamCentral (p : ℝ) : ℝ :=
  let q := p - 0.5
  let r := q * q
  ((((((-3.969683028665376e1 * r + 2.209460984245205e2) * r +
      -2.759285104469687e2) * r + 1.383577518672690e2) * r +
      -3.066479806614716e1) * r + 2.506628277459239) * q) /
    (((((-5.447609879822406e1 * r + 1.615858368580409e2) * r +
      -1.556989798598866e2) * r + 6.680131188771972e1) * r +
      -1.328068155288572e1) * r + 1)

/-- The upper-tail branch of Acklam's approximation: the lower-tail rational
function evaluated at `q = sqrt(-2 ln (1 - p))` with the sign flipped. -/
noncomputable def acklamUpper (p : ℝ) : ℝ :=
  let q := Real.sqrt (-2 * Real.log (1 - p));
  -((((((-7.784894002430293e-3 * q + -3.223964580411365e-1) * q +
      -2.400758277161838) * q + -2.549732539343734) * q +
      4.374664141464968) * q + 2.938163982698783)) /
    ((((7.784695709041462e-3 * q + 3.224671290700398e-1) * q +
      2.445134137142996) * q + 3.754408661907416) * q + 1)

/-- The standardized quantile `z` of `normalInverseCDF`: three regions
selected by the fixed breakpoints. -/
noncomputable def acklamZ (p : ℝ) : ℝ :=
  if p < pLow then acklamLower p
  else if p ≤ pHigh then acklamCentral p
  else acklamUpper p

/-- `normalInverseCDF` from `statistics.ts`: domain error outside `(0, 1)`,
otherwise the de-standardized quantile `z * stdDev + mean`. -/
noncomputable def normalInverseCDF (p : ℝ) (mean : ℝ := 0) (stdDev : ℝ := 1) :
    Except String ℝ :=
  if p ≤ 0 ∨ 1 ≤ p then .error "Probability must be between 0 and 1 (exclusive)"
  else .ok (acklamZ p * stdDev + mean)

/-! ## Regex-replacement machinery (`src/utils/math-engine.ts`)

The normalizer is a chain of `String.replace(/…/g, …)` calls.  Each literal
pattern (optionally anchored by a leading word boundary, and for the sampler
also a trailing one, optionally case-insensitive) is modelled by a single
left-to-right scan over the character list that replaces non-overlapping
occurrences exactly as the JS global replace does: matches are located on
the original string and the scan resumes after each match. -/

/-- The JS word-character class for the boundary assertion
(the regex word class is the ASCII letters, digits and the underscore). -/
def isWordChar (c : Char) : Bool := c.isAlpha || c.isDigit || c = '_'

/-- Character comparison, optionally case-insensitive (for the sampler's
case-insensitive substitution). -/
def ciEq (ci : Bool) (a b : Char) : Bool :=
  if ci then a.toLower = b.toLower else a = b

/-- Whether the pattern tail matches a prefix of the input. -/
def matchPat (ci : Bool) : List Char → List Char → Bool
  | [], _ => true
  | _ :: _, [] => false
  | p :: ps, c :: cs => ciEq ci p c && matchPat ci ps cs

/-- The leading word-boundary test: satisfied at the start of the string or
after a non-word character (only checked when the pattern carries it). -/
def lbOK (lb : Bool) (prev : Option Char) : Bool :=
  if lb then
    match prev with
    | none => true
    | some c => !isWordChar c
  else true

/-- The trailing word-boundary test on the text after the match. -/
def rbOK (rb : Bool) (rest : List Char) : Bool :=
  if rb then
    match rest with
    | [] => true
    | c :: _ => !isWordChar c
  else true

/-- One global-replace scan.  `skip` counts characters of an already matched
occurrence still to be passed over; `prev` is the previous character of the
original string (for the boundary test).  The pattern is split into its
first character `p` and tail `ps` so it is never empty. -/
def jsReplaceA (ci lb rb : Bool) (p : Char) (ps rep : List Char) :
    ℕ → Option Char → List Char → List Char
  | _, _, [] => []
  | skip + 1, _, c :: rest => jsReplaceA ci lb rb p ps rep skip (some c) rest
  | 0, prev, c :: rest =>
    if ciEq ci p c && matchPat ci ps rest && lbOK lb prev &&
        rbOK rb (rest.drop ps.length) then
      rep ++ jsReplaceA ci lb rb p ps rep ps.length (some c) rest
    else
      c :: jsReplaceA ci lb rb p ps rep 0 (some c) rest

/-- Global replacement of a literal pattern. -/
def jsReplace (ci lb rb : Bool) (pat rep l : List Char) : List Char :=
  match pat with
  | [] => l
  | p :: ps => jsReplaceA ci lb rb p ps rep 0 none l

/-! ## The expression normalizer `preprocessExpression` -/

/-- Pass `replace(/×/g, '*')`. -/
def passMul (l : List Char) : List Char := jsReplace false false false ['×'] ['*'] l

/-- Pass `replace(/÷/g, '/')`. -/
def passDiv (l : List Char) : List Char := jsReplace false false false ['÷'] ['/'] l

/-- Pass `replace(/π/g, 'pi')`. -/
def passPi (l : List Char) : List Char := jsReplace false false false ['π'] ['p', 'i'] l

/-- Pass `replace(/√\(/g, 'sqrt(')`. -/
def passSqrt (l : List Char) : List Char :=
  jsReplace false false false ['√', '('] "sqrt(".data l

/-- Log step 1a: `replace(/\bln\(/g, '__NATLOG__(')`. -/
def protectLn (l : List Char) : List Char :=
  jsReplace false true false "ln(".data "__NATLOG__(".data l

/-- Log step 1b: `replace(/\blog10\(/g, '__LOG10__(')`. -/
def protectLog10 (l : List Char) : List Char :=
  jsReplace false true false "log10(".data "__LOG10__(".data l

/-- Log step 1c: `replace(/\blog2\(/g, '__LOG2__(')`. -/
def protectLog2 (l : List Char) : List Char :=
  jsReplace false true false "log2(".data "__LOG2__(".data l

/-- Log step 2: `replace(/\blog\(/g, 'log10(')`. -/
def renameLog (l : List Char) : List Char :=
  jsReplace false true false "log(".data "log10(".data l

/-- Log step 3a: `replace(/__NATLOG__\(/g, 'log(')`. -/
def restoreNatlog (l : List Char) : List Char :=
  jsReplace false false false "__NATLOG__(".data "log(".data l

/-- Log step 3b: `replace(/__LOG10__\(/g, 'log10(')`. -/
def restoreLog10 (l : List Char) : List Char :=
  jsReplace false false false "__LOG10__(".data "log10(".data l

/-- Log step 3c: `replace(/__LOG2__\(/g, 'log2(')`. -/
def restoreLog2 (l : List Char) : List Char :=
  jsReplace false false false "__LOG2__(".data "log2(".data l

/-- The complete protect → bare-rename → restore sequence for the logarithm
names. -/
def logPasses (l : List Char) : List Char :=
  restoreLog2 (restoreLog10 (restoreNatlog (renameLog
    (protectLog2 (protectLog10 (protectLn l))))))

/-- The lookahead `(?=\s*[a-zA-Z(])` of the implicit-multiplication regex:
optional whitespace, then a letter or an opening parenthesis. -/
def lookaheadLP : List Char → Bool
  | [] => false
  | c :: rest => if c.isWhitespace then lookaheadLP rest else (c.isAlpha || c = '(')

/-- The lookbehind of the implicit-multiplication callback: the 4-character
window `substring(max(0, i-4), i)` before the digit, tested with
`/log1?$/` (and the redundant `/log$/`), i.e. it ends in `log` or `log1`. -/
def endsWithLog (p : List Char) : Bool :=
  let w := p.drop (p.length - 4)
  "log".data.isSuffixOf w || "log1".data.isSuffixOf w

/-- The implicit-multiplication pass
`replace(/(\d)(?=\s*[a-zA-Z(])(?![0-9])/g, callback)` as the left-to-right
scan it executes: each match is a single digit, so the scan emits every
character and inserts `*` after a digit whose lookahead and lookbehind
succeed.  `prev` holds the already scanned characters in reverse. -/
def implicitMultPass (prev : List Char) : List Char → List Char
  | [] => []
  | c :: rest =>
    if c.isDigit && lookaheadLP rest && !(endsWithLog prev.reverse) then
      c :: '*' :: implicitMultPass (c :: prev) rest
    else
      c :: implicitMultPass (c :: prev) rest

/-- The per-position reading of the implicit-multiplication regex, exactly
as the claim states it: a `*` is inserted after position `i` iff `s[i]` is a
digit, the text after it passes the lookahead, and the 4-character window
before it does not end in `log`/`log1`. -/
def implicitMultSpec (s : List Char) : List Char :=
  (List.range s.length).flatMap (fun i =>
    (s.getD i ' ') ::
      (if (s.getD i ' ').isDigit && lookaheadLP (s.drop (i + 1)) &&
          !(endsWithLog (s.take i)) then ['*'] else []))

/-- The percent regex `/(\d+\.?\d*)%/g` matched at a digit: maximal digit
run, optional dot with a maximal digit run, then a literal `%`; returns the
replacement `($1/100)` and the matched length. -/
def percentMatch (l : List Char) : Option (List Char × ℕ) :=
  let d1 := l.takeWhile Char.isDigit
  let r1 := l.dropWhile Char.isDigit
  match r1 with
  | '.' :: r2 =>
    let d2 := r2.takeWhile Char.isDigit
    let r3 := r2.dropWhile Char.isDigit
    match r3 with
    | '%' :: _ =>
      some ('(' :: d1 ++ '.' :: d2 ++ "/100)".data, d1.length + 1 + d2.length + 1)
    | _ => none
  | '%' :: _ => some ('(' :: d1 ++ "/100)".data, d1.length + 1)
  | _ => none

/-- The percent pass `replace(/(\d+\.?\d*)%/g, '($1/100)')`: scan left to
right, at a digit try the maximal-munch match; on success emit the
replacement and skip the matched characters. -/
def percentPassA : ℕ → List Char → List Char
  | _, [] => []
  | skip + 1, _ :: rest => percentPassA skip rest
  | 0, c :: rest =>
    if c.isDigit then
      match percentMatch (c :: rest) with
      | some (rep, n) => rep ++ percentPassA (n - 1) rest
      | none => c :: percentPassA 0 rest
    else c :: percentPassA 0 rest

/-- `preprocessExpression` from `math-engine.ts`: glyph replacements, the
logarithm protect/rename/restore sequence, implicit multiplication, percent
rewriting — in the source's order. -/
def preprocessExpression (s : String) : String :=
  String.mk (percentPassA 0 (implicitMultPass []
    (logPasses (passSqrt (passPi (passDiv (passMul s.data)))))))

/-! ## The evaluation adapter `evaluate` -/

/-- The angle unit (`'deg' | 'rad'` in `src/types`). -/
inductive AngleUnit where
  | deg
  | rad
  deriving DecidableEq, Repr

/-- `degreesToRadians` from `math-engine.ts`. -/
noncomputable def degreesToRadians (degrees : ℝ) : ℝ := degrees * (Real.pi / 180)

/-- `radiansToDegrees` from `math-engine.ts`. -/
noncomputable def radiansToDegrees (radians : ℝ) : ℝ := radians * (180 / Real.pi)

/-- An evaluation scope: the function overrides passed to `math.evaluate`. -/
def Scope : Type := List (String × (ℝ → ℝ))

/-- The degree-mode override scope built by `evaluate` when
`angleUnit == 'deg'`: forward trig converts the argument from degrees,
inverse trig converts the result back to degrees. -/
noncomputable def degScope : Scope :=
  [("sin", fun x => Real.sin (degreesToRadians x)),
   ("cos", fun x => Real.cos (degreesToRadians x)),
   ("tan", fun x => Real.tan (degreesToRadians x)),
   ("asin", fun x => radiansToDegrees (Real.arcsin x)),
   ("acos", fun x => radiansToDegrees (Real.arccos x)),
   ("atan", fun x => radiansToDegrees (Real.arctan x))]

/-- The scope `evaluate` installs for each angle unit: the degree overrides
in degree mode, the empty scope in radian mode. -/
noncomputable def scopeFor : AngleUnit → Scope
  | .deg => degScope
  | .rad => []

/-- Application of a scope override by name (identity when absent). -/
noncomputable def scopeApp (s : Scope) (name : String) (x : ℝ) : ℝ :=
  match s.lookup name with
  | some f => f x
  | none => x

/-- `transformForAngleUnit` from `math-engine.ts`: returns the expression
unchanged in both modes (conversion happens via the scope). -/
def transformForAngleUnit (expression : String) (_ : AngleUnit) : String :=
  expression

/-- A value produced by the underlying mathjs evaluator: a number, a
boolean, some other formattable value (array, matrix, …, already rendered
by `math.format`), or `null`/`undefined`. -/
inductive MathValue where
  | num (x : JSNum)
  | boolV (b : Bool)
  | other (s : String)
  | nullish
  deriving DecidableEq

/-- The `value` field of a successful `CalculationResult`
(`number | string` in the source). -/
inductive ResultValue where
  | numR (x : JSNum)
  | strR (s : String)
  deriving DecidableEq

/-- `CalculationResult` from `src/types`: success with a value and a display
string, or failure with an error message. -/
inductive CalculationResult where
  | success (value : ResultValue) (displayValue : String)
  | failure (error : String)
  deriving DecidableEq

/-- Substring containment, i.e. JS `String.includes`. -/
def containsSub (s pat : List Char) : Bool :=
  if pat.isPrefixOf s then true
  else
    match s with
    | [] => false
    | _ :: t => containsSub t pat

/-- JS `message.includes(pattern)`. -/
def jsIncludes (s pat : String) : Bool := containsSub s.data pat.data

/-- The `ERROR_MESSAGES` table of `math-engine.ts`, in object-literal
(insertion) order. -/
def errorMessages : List (String × String) :=
  [("Undefined function", "Unknown function"),
   ("Unexpected end of expression", "Incomplete expression"),
   ("Value expected", "Missing value"),
   ("Parenthesis ) expected", "Missing )"),
   ("Cannot divide by zero", "Divide by zero")]

/-- `getUserFriendlyError` from `math-engine.ts`: first matching table
entry, else `"Syntax Error"` for messages longer than 30 characters, else
the raw message. -/
def getUserFriendlyError (message : String) : String :=
  match errorMessages.find? (fun e => jsIncludes message e.1) with
  | some e => e.2
  | none => if 30 < message.length then "Syntax Error" else message

/-- `formatNumber` from `math-engine.ts` on its non-finite branch; the
finite-number branch (`toPrecision`/`toExponential` display formatting) is
abstracted by the parameter `fmt`, since no verified property depends on
it. -/
def formatNumber (fmt : ℚ → String) : JSNum → String
  | .nan => "Error"
  | .posInf => "Infinity"
  | .negInf => "-Infinity"
  | .fin q => fmt q

/-- The abstract mathjs evaluator: given the preprocessed expression text
and the override scope, it returns a value or throws (`Except.error` carries
the thrown message).  `evaluate` is verified for every oracle. -/
def EvalOracle : Type := String → Scope → Except String MathValue

/-- `evaluate` from `math-engine.ts`: the empty/whitespace check (before any
normalization), then preprocessing, the angle-unit scope, the oracle call,
result classification, and exception-to-message conversion. -/
noncomputable def evaluateM (oracle : EvalOracle) (fmt : ℚ → String)
    (expression : String) (angleUnit : AngleUnit) : CalculationResult :=
  if expression.data.all Char.isWhitespace then .failure "Empty expression"
  else
    match oracle (transformForAngleUnit (preprocessExpression expression) angleUnit)
        (scopeFor angleUnit) with
    | .error e => .failure (getUserFriendlyError e)
    | .ok (.num x) => .success (.numR x) (formatNumber fmt x)
    | .ok (.boolV b) =>
      .success (.strR (if b then "true" else "false")) (if b then "true" else "false")
    | .ok (.other s) => .success (.strR s) s
    | .ok .nullish => .failure "No result"

/-! ## The function sampler (`src/utils/graphing.ts`) -/

/-- The numeric literal interpolated by the template `(${x})`; exact for
integer-valued numbers, which covers every use in this development (the JS
decimal rendering of non-integers is not modelled further). -/
def renderNum (x : ℚ) : String :=
  if x.den = 1 then toString x.num else toString x

/-- The substitution `expression.replace(/\bx\b/gi, '(' + x + ')')` of
`evaluateFunction`. -/
def substituteX (expression : String) (x : ℚ) : String :=
  String.mk (jsReplace true true true ['x']
    ('(' :: (renderNum x).data ++ [')']) expression.data)

/-- `evaluateFunction` from `graphing.ts`: substitute `x`, evaluate in
radians, return the number only when evaluation succeeded with a finite
numeric value; otherwise the undefined signal (`null` in the source). -/
noncomputable def evaluateFunction (oracle : EvalOracle) (fmt : ℚ → String)
    (expression : String) (x : ℚ) : Option ℚ :=
  match evaluateM oracle fmt (substituteX expression x) .rad with
  | .success (.numR (.fin q)) _ => some q
  | _ => none

/-! ## Token alphabet for the logarithm-rewriting proof -/

/-- Tokens over which the logarithm passes are analysed: the four
user-facing call tokens, the three placeholder tokens, and separator
characters. -/
inductive LogTok where
  | tln
  | tlog10
  | tlog2
  | tlog
  | tnat
  | tl10p
  | tl2p
  | sep (c : Char)
  deriving DecidableEq

/-- The text of each token. -/
def renderTok : LogTok → List Char
  | .tln => "ln(".data
  | .tlog10 => "log10(".data
  | .tlog2 => "log2(".data
  | .tlog => "log(".data
  | .tnat => "__NATLOG__(".data
  | .tl10p => "__LOG10__(".data
  | .tl2p => "__LOG2__(".data
  | .sep c => [c]

/-- The text of a token sequence. -/
def renderToks (ts : List LogTok) : List Char := ts.flatMap renderTok

/-- Separator characters must be non-word (so the tokens sit at word
boundaries) and not the underscore (so they cannot start a placeholder). -/
def goodTok : LogTok → Bool
  | .sep c => !isWordChar c && c ≠ '_'
  | _ => true

/-- A user-facing token: no placeholder tokens, constrained separators. -/
def userTok : LogTok → Bool
  | .tnat => false
  | .tl10p => false
  | .tl2p => false
  | t => goodTok t

/-- The action of the complete logarithm-rewriting sequence on one token:
`ln(` becomes the evaluator's natural-log name `log(`, a bare `log(`
becomes `log10(`, and `log10(`/`log2(` are unchanged. -/
def logResolve : LogTok → LogTok
  | .tln => .tlog
  | .tlog => .tlog10
  | .tlog10 => .tlog10
  | .tlog2 => .tlog2
  | .tnat => .tlog
  | .tl10p => .tlog10
  | .tl2p => .tlog2
  | .sep c => .sep c

/-! ## Match-failure certificates for the replacement scan

To reason about a replacement pass over a concatenation of text chunks, a
decidable certificate states that no match can start inside a given chunk:
at every position either the pattern head differs or the pattern tail
provably mismatches within the chunk (so the failure is independent of
whatever text follows). -/

/-- The pattern tail mismatches strictly within the chunk tail. -/
def patMissWithin (ci : Bool) : List Char → List Char → Bool
  | [], _ => false
  | _ :: _, [] => false
  | p' :: ps', c' :: cs' => if ciEq ci p' c' then patMissWithin ci ps' cs' else true

/-- No match of `p :: ps` can start at the head of `c :: cs`. -/
def headMiss (ci : Bool) (p : Char) (ps : List Char) (c : Char) (cs : List Char) :
    Bool :=
  !(ciEq ci p c) || patMissWithin ci ps cs

/-- No match of `p :: ps` can start anywhere inside the chunk. -/
def chunkMiss (ci : Bool) (p : Char) (ps : List Char) : List Char → Bool
  | [] => true
  | c :: cs => headMiss ci p ps c cs && chunkMiss ci p ps cs

/-- The previous-character state after scanning a chunk. -/
def lastPrev (prev : Option Char) (chunk : List Char) : Option Char :=
  match chunk.getLast? with
  | some c => some c
  | none => prev

/-! ## Per-pass token maps for the logarithm rewriting -/

/-- Action of the `ln(`-protection pass on a token. -/
def mProtectLn : LogTok → LogTok
  | .tln => .tnat
  | t => t

/-- Action of the `log10(`-protection pass on a token. -/
def mProtectLog10 : LogTok → LogTok
  | .tlog10 => .tl10p
  | t => t

/-- Action of the `log2(`-protection pass on a token. -/
def mProtectLog2 : LogTok → LogTok
  | .tlog2 => .tl2p
  | t => t

/-- Action of the bare-`log(` rename pass on a token. -/
def mRenameLog : LogTok → LogTok
  | .tlog => .tlog10
  | t => t

/-- Action of the `__NATLOG__(`-restore pass on a token. -/
def mRestoreNatlog : LogTok → LogTok
  | .tnat => .tlog
  | t => t

/-- Action of the `__LOG10__(`-restore pass on a token. -/
def mRestoreLog10 : LogTok → LogTok
  | .tl10p => .tlog10
  | t => t

/-- Action of the `__LOG2__(`-restore pass on a token. -/
def mRestoreLog2 : LogTok → LogTok
  | .tl2p => .tlog2
  | t => t

/-! ## Concrete oracles and formatters for instantiating the adapter -/

/-- A trivial display formatter used in concrete instantiations. -/
def fmt0 : ℚ → String := fun _ => ""

/-- An oracle that reports the names of the installed scope overrides,
making the scope selection of `evaluate` observable. -/
def spyOracle : EvalOracle := fun _ scope =>
  .ok (.other (String.intercalate "," (scope.map Prod.fst)))

/-- An oracle that always throws an undefined-function error. -/
def throwOracle : EvalOracle := fun _ _ => .error "Undefined function foo"

/-- An oracle that evaluates `1/(0)` to `Infinity` (IEEE semantics of the
mathjs evaluator) and throws on anything else. -/
def div0Oracle : EvalOracle := fun s _ =>
  if s = "1/(0)" then .ok (.num .posInf) else .error "Undefined symbol x"

/-! ## Specification predicates for the mode computation -/

/-- The occurrence map built by `calculateMode` over the processed prefix
`p`: keys are distinct and an entry `(k, c)` is present exactly when `k`
occurs in `p` with multiplicity `c`. -/
def CountsInv (p : List ℚ) (counts : List (ℚ × ℕ)) : Prop :=
  (counts.map Prod.fst).Nodup ∧
  ∀ k c, (k, c) ∈ counts ↔ (k ∈ p ∧ c = p.count k)

/-- `M` is the running maximum of `calculateMode` over the processed prefix
`p`: it bounds every multiplicity and is attained (or the prefix is empty). -/
def IsMaxMult (p : List ℚ) (M : ℕ) : Prop :=
  (∀ x, p.count x ≤ M) ∧ (M = 0 ∨ ∃ x ∈ p, p.count x = M)

/-! ## Helper lemmas: the combinatorics loops compute the exact values -/

theorem factLoop_zero : factLoop 0 = 1 := rfl

theorem factLoop_one : factLoop 1 = 1 := rfl

theorem factLoop_eq (n : ℕ) : factLoop n = (n.factorial : ℚ) := by
  induction n with
  | zero => simp [factLoop]
  | succ m ih =>
    match m, ih with
    | 0, _ => simp [factLoop]
    | Nat.succ k, ih =>
      have hrange : List.range' 2 (k + 2 - 1) = List.range' 2 (k + 1 - 1) ++ [2 + k] := by
        have := List.range'_1_concat 2 k
        simpa using this
      rw [factLoop, hrange, List.foldl_append]
      rw [factLoop] at ih
      rw [ih]
      simp only [List.foldl_cons, List.foldl_nil]
      push_cast [Nat.factorial_succ]
      ring

theorem permLoop_succ (n r : ℕ) :
    permLoop n (r + 1) = permLoop n r * ((n : ℚ) - (r : ℚ)) := by
  rw [permLoop, permLoop, List.range_succ, List.foldl_append]
  rfl

theorem permLoop_eq (n r : ℕ) (h : r ≤ n) :
    permLoop n r = (n.descFactorial r : ℚ) := by
  induction r with
  | zero => simp [permLoop]
  | succ k ih =>
    have hk : k ≤ n := Nat.le_of_succ_le h
    rw [permLoop_succ, ih hk, Nat.descFactorial_succ]
    push_cast [Nat.cast_sub hk]
    ring

theorem combLoop_succ (n k : ℕ) :
    combLoop n (k + 1) = combLoop n k * ((n : ℚ) - (k : ℚ)) / ((k : ℚ) + 1) := by
  rw [combLoop, combLoop, List.range_succ, List.foldl_append]
  rfl

theorem combLoop_eq (n k : ℕ) (h : k ≤ n) :
    combLoop n k = (n.choose k : ℚ) := by
  induction k with
  | zero => simp [combLoop]
  | succ k ih =>
    have hk : k ≤ n := Nat.le_of_succ_le h
    have hcast := congrArg (fun m : ℕ => (m : ℚ)) (Nat.choose_succ_right_eq n k)
    push_cast [Nat.cast_sub hk] at hcast
    rw [combLoop_succ, ih hk, div_eq_iff (by positivity : ((k : ℚ) + 1) ≠ 0)]
    linarith [hcast]

theorem natCast_num_toNat (n : ℕ) : ((n : ℚ)).num.toNat = n := by
  simp

theorem statsCombinations_choose (n r : ℕ) (h : r ≤ n) :
    statsCombinations (n : ℚ) (r : ℚ) = .ok (.fin (n.choose r)) := by
  rw [statsCombinations]
  rw [if_neg (by simp [isIntegerQ])]
  rw [if_neg (not_lt.mpr (by exact_mod_cast h))]
  by_cases h0 : r = 0 ∨ r = n
  · rw [if_pos (by
      rcases h0 with h0 | h0 <;> subst h0 <;> simp)]
    rcases h0 with h0 | h0 <;> subst h0 <;> simp [Nat.choose_self]
  · rw [if_neg (by
      rintro (h1 | h1)
      · exact h0 (Or.inl (by exact_mod_cast h1))
      · exact h0 (Or.inr (by exact_mod_cast h1)))]
    simp only [natCast_num_toNat]
    by_cases hk : n - r < r
    · rw [if_pos hk, combLoop_eq n (n - r) (Nat.sub_le n r),
        Nat.choose_symm h, round_natCast]
      rfl
    · rw [if_neg hk, combLoop_eq n r h, round_natCast]
      rfl

/-! ## Claim theorems C7, C8, C9, C10 -/

/-- C9: for all non-negative integers `n` and `r`, the statistics module's
`combinations` satisfies `combinations(n,r) == combinations(n,n-r)` for
`r ≤ n`, `combinations(n,0) == 1`, `combinations(n,n) == 1`, and
`combinations(n,r) == 0` for `r > n`; moreover the multiply-then-divide loop
over the smaller of `r` and `n-r` followed by rounding computes exactly the
binomial coefficient. -/
theorem combinations_identities (n r : ℕ) :
    (r ≤ n → statsCombinations (n : ℚ) (r : ℚ) = statsCombinations (n : ℚ) (((n - r : ℕ)) : ℚ)) ∧
    statsCombinations (n : ℚ) ((0 : ℕ) : ℚ) = .ok (.fin 1) ∧
    statsCombinations (n : ℚ) (n : ℚ) = .ok (.fin 1) ∧
    (n < r → statsCombinations (n : ℚ) (r : ℚ) = .ok (.fin 0)) ∧
    (r ≤ n → statsCombinations (n : ℚ) (r : ℚ) = .ok (.fin (n.choose r))) := by
  refine ⟨?_, ?_, ?_, ?_, ?_⟩
  · intro h
    rw [statsCombinations_choose n r h, statsCombinations_choose n (n - r) (Nat.sub_le n r),
      Nat.choose_symm h]
  · have := statsCombinations_choose n 0 (Nat.zero_le n)
    simpa using this
  · have := statsCombinations_choose n n le_rfl
    simpa [Nat.choose_self] using this
  · intro h
    rw [statsCombinations]
    rw [if_neg (by simp [isIntegerQ])]
    rw [if_pos (by exact_mod_cast h)]
  · exact statsCombinations_choose n r

/-- Witness for C9 at `n = 5`, `r = 2`. -/
theorem combinations_identities_witness :
    statsCombinations ((5 : ℕ) : ℚ) ((2 : ℕ) : ℚ) = .ok (.fin ((5 : ℕ).choose 2)) :=
  (combinations_identities 5 2).2.2.2.2 (by norm_num)

/-- C7: `calculateStatistics` always reports `count == values.length`, and on
the empty dataset every numeric field is `0` and the mode set is empty; no
function of the descriptive-statistics module raises on empty input (each is
total and returns its documented `0`/`[]` default). -/
theorem calculateStatistics_invariants :
    (∀ values : List ℚ,
        (calculateStatistics values).count = values.length ∧
        (calculateStatistics values).values = values) ∧
    (calculateStatistics []).mean = 0 ∧
    (calculateStatistics []).median = 0 ∧
    (calculateStatistics []).mode = [] ∧
    (calculateStatistics []).stdDev = 0 ∧
    (calculateStatistics []).variance = 0 ∧
    (calculateStatistics []).sum = 0 ∧
    (calculateStatistics []).count = 0 ∧
    calculateMean [] = 0 ∧
    calculateMedian [] = 0 ∧
    calculateMode [] = [] ∧
    calculateVariance [] = 0 ∧
    calculateSampleVariance [] = 0 ∧
    calculateStdDev [] = 0 ∧
    calculateSampleStdDev [] = 0 ∧
    calculateSum [] = 0 := by
  refine ⟨fun values => ⟨rfl, rfl⟩, rfl, rfl, rfl, ?_, rfl, rfl, rfl,
    rfl, rfl, rfl, rfl, rfl, ?_, ?_, rfl⟩
  · show calculateStdDev [] = 0
    simp [calculateStdDev, calculateVariance]
  · simp [calculateStdDev, calculateVariance]
  · simp [calculateSampleStdDev, calculateSampleVariance]

/-- C8: `normalInverseCDF` raises its domain error exactly when `p ≤ 0` or
`p ≥ 1`; for `0 < p < 1` it returns `z * stdDev + mean` where the
standardized quantile `z` is the lower-tail rational branch for `p < pLow`,
the central branch in `q = p - 0.5` for `pLow ≤ p ≤ pHigh`, and the
sign-flipped lower-tail formula at `1 - p` for `p > pHigh`; at `p = 1/2` the
result is exactly the mean. -/
theorem normalInverseCDF_spec (p mean stdDev : ℝ) :
    ((normalInverseCDF p mean stdDev =
        .error "Probability must be between 0 and 1 (exclusive)") ↔ (p ≤ 0 ∨ 1 ≤ p)) ∧
    (0 < p → p < 1 → normalInverseCDF p mean stdDev = .ok (acklamZ p * stdDev + mean)) ∧
    (p < pLow → acklamZ p = acklamLower p) ∧
    (pLow ≤ p → p ≤ pHigh → acklamZ p = acklamCentral p) ∧
    (pHigh < p → acklamZ p = acklamUpper p) ∧
    (acklamUpper p = - acklamLower (1 - p)) ∧
    normalInverseCDF (1 / 2) mean stdDev = .ok mean := by
  have hLowHigh : pLow ≤ pHigh := by rw [pHigh, pLow]; norm_num
  refine ⟨?_, ?_, ?_, ?_, ?_, ?_, ?_⟩
  · constructor
    · intro h
      by_contra hc
      rw [normalInverseCDF, if_neg hc] at h
      exact Except.noConfusion h
    · intro h
      rw [normalInverseCDF, if_pos h]
  · intro h0 h1
    rw [normalInverseCDF, if_neg (by push_neg; exact ⟨h0, h1⟩)]
  · intro h
    rw [acklamZ, if_pos h]
  · intro h1 h2
    rw [acklamZ, if_neg (not_lt.mpr h1), if_pos h2]
  · intro h
    rw [acklamZ, if_neg (not_lt.mpr (le_trans hLowHigh (le_of_lt h))),
      if_neg (not_le.mpr h)]
  · rw [acklamUpper, acklamLower]
    rw [neg_div]
  · have hz : acklamCentral (1 / 2) = 0 := by
      rw [acklamCentral]
      norm_num
    have hcond : ¬((1 : ℝ) / 2 ≤ 0 ∨ (1 : ℝ) ≤ 1 / 2) := by norm_num
    rw [normalInverseCDF, if_neg hcond, acklamZ,
      if_neg (not_lt.mpr (by rw [pLow]; norm_num)),
      if_pos (by rw [pHigh, pLow]; norm_num), hz, zero_mul, zero_add]

/-- Witness for C8: the central-region implication instantiated at
`p = 1/2`, `mean = 5`, `stdDev = 2`. -/
theorem normalInverseCDF_spec_witness :
    normalInverseCDF (1 / 2) 5 2 = .ok (acklamZ (1 / 2) * 2 + 5) :=
  (normalInverseCDF_spec (1 / 2) 5 2).2.1 (by norm_num) (by norm_num)

/-- C10: the statistics-module combinatorics and the math-engine (mathjs
delegating) combinatorics raise under exactly the same domain conditions
(negative or non-integer arguments), and return equal values on non-negative
integer arguments with `r ≤ n` (and `n ≤ 170` for factorial). -/
theorem combinatorics_impls_agree :
    (∀ q : ℚ,
        exceptIsError (statsFactorial q) = exceptIsError (engineFactorial q) ∧
        (exceptIsError (statsFactorial q) = true ↔ q < 0 ∨ q.den ≠ 1)) ∧
    (∀ q r : ℚ,
        exceptIsError (statsPermutations q r) = exceptIsError (enginePermutations q r) ∧
        (exceptIsError (statsPermutations q r) = true ↔
          q < 0 ∨ r < 0 ∨ q.den ≠ 1 ∨ r.den ≠ 1)) ∧
    (∀ q r : ℚ,
        exceptIsError (statsCombinations q r) = exceptIsError (engineCombinations q r) ∧
        (exceptIsError (statsCombinations q r) = true ↔
          q < 0 ∨ r < 0 ∨ q.den ≠ 1 ∨ r.den ≠ 1)) ∧
    (∀ n : ℕ, n ≤ 170 → statsFactorial (n : ℚ) = engineFactorial (n : ℚ)) ∧
    (∀ n r : ℕ, r ≤ n → statsPermutations (n : ℚ) (r : ℚ) = enginePermutations (n : ℚ) (r : ℚ)) ∧
    (∀ n r : ℕ, r ≤ n →
      statsCombinations (n : ℚ) (r : ℚ) = engineCombinations (n : ℚ) (r : ℚ)) := by
  refine ⟨?_, ?_, ?_, ?_, ?_, ?_⟩
  · intro q
    by_cases hc : q < 0 ∨ ¬ isIntegerQ q
    · rw [statsFactorial, if_pos hc, engineFactorial, if_pos hc]
      refine ⟨rfl, ?_⟩
      simpa [exceptIsError, isIntegerQ] using hc
    · have e1 : exceptIsError (statsFactorial q) = false := by
        rw [statsFactorial, if_neg hc]
        split_ifs <;> rfl
      have e2 : exceptIsError (engineFactorial q) = false := by
        rw [engineFactorial, if_neg hc]
        split_ifs <;> rfl
      rw [e1, e2]
      refine ⟨rfl, ?_⟩
      simpa [isIntegerQ] using hc
  · intro q r
    by_cases hc : q < 0 ∨ r < 0 ∨ ¬ isIntegerQ q ∨ ¬ isIntegerQ r
    · rw [statsPermutations, if_pos hc, enginePermutations, if_pos hc]
      refine ⟨rfl, ?_⟩
      simpa [exceptIsError, isIntegerQ] using hc
    · have e1 : exceptIsError (statsPermutations q r) = false := by
        rw [statsPermutations, if_neg hc]
        split_ifs <;> rfl
      have e2 : exceptIsError (enginePermutations q r) = false := by
        rw [enginePermutations, if_neg hc]
        split_ifs <;> rfl
      rw [e1, e2]
      refine ⟨rfl, ?_⟩
      simpa [isIntegerQ] using hc
  · intro q r
    by_cases hc : q < 0 ∨ r < 0 ∨ ¬ isIntegerQ q ∨ ¬ isIntegerQ r
    · rw [statsCombinations, if_pos hc, engineCombinations, if_pos hc]
      refine ⟨rfl, ?_⟩
      simpa [exceptIsError, isIntegerQ] using hc
    · have e1 : exceptIsError (statsCombinations q r) = false := by
        rw [statsCombinations, if_neg hc]
        split_ifs <;> rfl
      have e2 : exceptIsError (engineCombinations q r) = false := by
        rw [engineCombinations, if_neg hc]
        split_ifs <;> rfl
      rw [e1, e2]
      refine ⟨rfl, ?_⟩
      simpa [isIntegerQ] using hc
  · intro n hn
    have hc : ¬(((n : ℚ) < 0) ∨ ¬ isIntegerQ (n : ℚ)) := by simp [isIntegerQ]
    have h170 : ¬((170 : ℚ) < (n : ℚ)) := by
      exact_mod_cast not_lt.mpr hn
    rw [statsFactorial, if_neg hc, engineFactorial, if_neg hc]
    by_cases h01 : ((n : ℚ) = 0 ∨ (n : ℚ) = 1)
    · rw [if_pos h01, if_neg h170]
      rcases h01 with h0 | h0
      · have : n = 0 := by exact_mod_cast h0
        subst this
        simp [mathjsFactorial]
      · have : n = 1 := by exact_mod_cast h0
        subst this
        simp [mathjsFactorial]
    · rw [if_neg h01, if_neg h170, if_neg h170]
      simp only [natCast_num_toNat, factLoop_eq]
      rfl
  · intro n r h
    have hc : ¬((n : ℚ) < 0 ∨ (r : ℚ) < 0 ∨ ¬ isIntegerQ (n : ℚ) ∨ ¬ isIntegerQ (r : ℚ)) := by
      simp [isIntegerQ]
    have hlt : ¬((n : ℚ) < (r : ℚ)) := by exact_mod_cast not_lt.mpr h
    rw [statsPermutations, if_neg hc, if_neg hlt,
      enginePermutations, if_neg hc, if_neg hlt]
    by_cases hr : (r : ℚ) = 0
    · rw [if_pos hr]
      have : r = 0 := by exact_mod_cast hr
      subst this
      simp [mathjsPermutations]
    · rw [if_neg hr]
      simp only [natCast_num_toNat, permLoop_eq n r h]
      rfl
  · intro n r h
    have hc : ¬((n : ℚ) < 0 ∨ (r : ℚ) < 0 ∨ ¬ isIntegerQ (n : ℚ) ∨ ¬ isIntegerQ (r : ℚ)) := by
      simp [isIntegerQ]
    have hlt : ¬((n : ℚ) < (r : ℚ)) := by exact_mod_cast not_lt.mpr h
    rw [statsCombinations_choose n r h, engineCombinations, if_neg hc, if_neg hlt]
    simp only [natCast_num_toNat]
    rfl

/-- Witness for C10: both factorials agree at `n = 5`. -/
theorem combinatorics_impls_agree_witness :
    statsFactorial ((5 : ℕ) : ℚ) = engineFactorial ((5 : ℕ) : ℚ) :=
  combinatorics_impls_agree.2.2.2.1 5 (by norm_num)

/-! ## Helper lemmas: the occurrence map of `calculateMode` -/

theorem assocLookup_some_of_mem {k : ℚ} {c : ℕ} {counts : List (ℚ × ℕ)}
    (hnd : (counts.map Prod.fst).Nodup) (hmem : (k, c) ∈ counts) :
    assocLookup k counts = some c := by
  induction counts with
  | nil => simp at hmem
  | cons e t ih =>
    obtain ⟨k', c'⟩ := e
    rw [assocLookup]
    rcases List.mem_cons.mp hmem with he | ht
    · obtain ⟨rfl, rfl⟩ : k' = k ∧ c' = c := by
        simp only [Prod.mk.injEq] at he
        exact ⟨he.1.symm, he.2.symm⟩
      simp
    · simp only [List.map_cons, List.nodup_cons] at hnd
      by_cases hk : k' = k
      · subst hk
        exact absurd (List.mem_map.mpr ⟨(k', c), ht, rfl⟩) hnd.1
      · rw [if_neg hk]
        exact ih hnd.2 ht

theorem assocLookup_eq_none {k : ℚ} {counts : List (ℚ × ℕ)}
    (h : ∀ c, (k, c) ∉ counts) : assocLookup k counts = none := by
  induction counts with
  | nil => rfl
  | cons e t ih =>
    obtain ⟨k', c'⟩ := e
    rw [assocLookup]
    by_cases hk : k' = k
    · subst hk
      exact absurd (List.mem_cons_self _ _) (h c')
    · rw [if_neg hk]
      exact ih fun c hc => h c (List.mem_cons_of_mem _ hc)

theorem mem_assocSet_fst {a k : ℚ} {v : ℕ} {counts : List (ℚ × ℕ)}
    (ha : a ∈ (assocSet k v counts).map Prod.fst) :
    a ∈ counts.map Prod.fst ∨ a = k := by
  induction counts with
  | nil => simpa [assocSet] using ha
  | cons e t ih =>
    obtain ⟨k', c'⟩ := e
    rw [assocSet] at ha
    by_cases hk : k' = k
    · rw [if_pos hk] at ha
      subst hk
      simp only [List.map_cons, List.mem_cons] at ha ⊢
      tauto
    · rw [if_neg hk] at ha
      simp only [List.map_cons, List.mem_cons] at ha ⊢
      rcases ha with h | h
      · exact Or.inl (Or.inl h)
      · rcases ih h with h | h
        · exact Or.inl (Or.inr h)
        · exact Or.inr h

theorem nodup_fst_assocSet {k : ℚ} {v : ℕ} {counts : List (ℚ × ℕ)}
    (hnd : (counts.map Prod.fst).Nodup) :
    ((assocSet k v counts).map Prod.fst).Nodup := by
  induction counts with
  | nil => simp [assocSet]
  | cons e t ih =>
    obtain ⟨k', c'⟩ := e
    simp only [List.map_cons, List.nodup_cons] at hnd
    rw [assocSet]
    by_cases hk : k' = k
    · rw [if_pos hk]
      subst hk
      simpa using hnd
    · rw [if_neg hk]
      simp only [List.map_cons, List.nodup_cons]
      refine ⟨fun hmem => ?_, ih hnd.2⟩
      rcases mem_assocSet_fst hmem with h | h
      · exact hnd.1 h
      · exact hk h

theorem mem_assocSet_iff {a k : ℚ} {b v : ℕ} {counts : List (ℚ × ℕ)}
    (hnd : (counts.map Prod.fst).Nodup) :
    (a, b) ∈ assocSet k v counts ↔
      ((a = k ∧ b = v) ∨ ((a, b) ∈ counts ∧ a ≠ k)) := by
  induction counts with
  | nil => simp [assocSet]
  | cons e t ih =>
    obtain ⟨k', c'⟩ := e
    simp only [List.map_cons, List.nodup_cons] at hnd
    have hknot : ∀ c : ℕ, (k', c) ∈ t → False := fun c hc =>
      hnd.1 (List.mem_map.mpr ⟨(k', c), hc, rfl⟩)
    rw [assocSet]
    by_cases hk : k' = k
    · rw [if_pos hk]
      simp only [List.mem_cons, Prod.mk.injEq]
      constructor
      · rintro (h | ht)
        · exact Or.inl h
        · refine Or.inr ⟨Or.inr ht, fun hak => ?_⟩
          exact hknot b ((hk.trans hak.symm).symm ▸ ht)
      · rintro (h | ⟨(⟨ha, _⟩ | ht), hak⟩)
        · exact Or.inl h
        · exact absurd (ha.trans hk) hak
        · exact Or.inr ht
    · rw [if_neg hk]
      simp only [List.mem_cons, Prod.mk.injEq, ih hnd.2]
      constructor
      · rintro (⟨ha, hb⟩ | (h | ⟨ht, hak⟩))
        · exact Or.inr ⟨Or.inl ⟨ha, hb⟩, fun hak => hk (ha.symm.trans hak)⟩
        · exact Or.inl h
        · exact Or.inr ⟨Or.inr ht, hak⟩
      · rintro (h | ⟨(⟨ha, hb⟩ | ht), hak⟩)
        · exact Or.inr (Or.inl h)
        · exact Or.inl ⟨ha, hb⟩
        · exact Or.inr (Or.inr ⟨ht, hak⟩)

theorem lookup_count {p : List ℚ} {counts : List (ℚ × ℕ)}
    (h : CountsInv p counts) (v : ℚ) :
    (assocLookup v counts).getD 0 = p.count v := by
  obtain ⟨hnd, hmem⟩ := h
  by_cases hv : v ∈ p
  · rw [assocLookup_some_of_mem hnd ((hmem v (p.count v)).mpr ⟨hv, rfl⟩)]
    rfl
  · rw [assocLookup_eq_none (fun c hc => hv ((hmem v c).mp hc).1)]
    simp [List.count_eq_zero_of_not_mem hv]

theorem countsInv_step {p : List ℚ} {counts : List (ℚ × ℕ)}
    (h : CountsInv p counts) (v : ℚ) :
    CountsInv (p ++ [v]) (assocSet v ((assocLookup v counts).getD 0 + 1) counts) := by
  obtain ⟨hnd, hmem⟩ := h
  have hcv : (assocLookup v counts).getD 0 + 1 = (p ++ [v]).count v := by
    rw [lookup_count ⟨hnd, hmem⟩ v]
    simp [List.count_append]
  refine ⟨nodup_fst_assocSet hnd, fun k c => ?_⟩
  rw [mem_assocSet_iff hnd]
  constructor
  · rintro (⟨ha, hb⟩ | ⟨hin, hne⟩)
    · subst ha
      subst hb
      exact ⟨by simp, hcv⟩
    · obtain ⟨hkp, rfl⟩ := (hmem k c).mp hin
      refine ⟨by simp [hkp], ?_⟩
      simp [List.count_append, List.count_singleton, hne, Ne.symm hne]
  · rintro ⟨hkin, rfl⟩
    by_cases hkv : k = v
    · subst hkv
      exact Or.inl ⟨rfl, hcv.symm⟩
    · have hkp : k ∈ p := by
        rcases List.mem_append.mp hkin with h | h
        · exact h
        · simp at h
          exact absurd h hkv
      have hcnt : (p ++ [v]).count k = p.count k := by
        simp [List.count_append, List.count_singleton, hkv, Ne.symm hkv]
      exact Or.inr ⟨(hmem k _).mpr ⟨hkp, hcnt⟩, hkv⟩

theorem isMaxMult_step {p : List ℚ} {M : ℕ} (h : IsMaxMult p M) (v : ℚ) :
    IsMaxMult (p ++ [v]) (max M (p.count v + 1)) := by
  obtain ⟨hb, hat⟩ := h
  constructor
  · intro x
    by_cases hx : x = v
    · subst hx
      have hcnt : (p ++ [x]).count x = p.count x + 1 := by simp [List.count_append]
      rw [hcnt]
      exact le_max_right _ _
    · have hcnt : (p ++ [v]).count x = p.count x := by
        simp [List.count_append, List.count_singleton, hx, Ne.symm hx]
      rw [hcnt]
      exact le_trans (hb x) (le_max_left _ _)
  · right
    rcases le_or_lt M (p.count v + 1) with hle | hlt
    · refine ⟨v, by simp, ?_⟩
      rw [max_eq_right hle]
      simp [List.count_append]
    · rcases hat with h0 | ⟨x, hx, hcx⟩
      · omega
      · have hxv : x ≠ v := by
          rintro rfl
          omega
        refine ⟨x, by simp [hx], ?_⟩
        rw [max_eq_left (le_of_lt hlt)]
        have hcnt : (p ++ [v]).count x = p.count x := by
          simp [List.count_append, List.count_singleton, hxv, Ne.symm hxv]
        rw [hcnt, hcx]

theorem modeScan_inv : ∀ (l p : List ℚ) (counts : List (ℚ × ℕ)) (M : ℕ),
    CountsInv p counts → IsMaxMult p M →
    CountsInv (p ++ l) (modeScan l counts M).1 ∧
      IsMaxMult (p ++ l) (modeScan l counts M).2 := by
  intro l
  induction l with
  | nil =>
    intro p counts M h1 h2
    rw [List.append_nil]
    exact ⟨h1, h2⟩
  | cons v rest ih =>
    intro p counts M h1 h2
    have hlk : (assocLookup v counts).getD 0 = p.count v := lookup_count h1 v
    have step1 := countsInv_step h1 v
    have step2 : IsMaxMult (p ++ [v]) (max M ((assocLookup v counts).getD 0 + 1)) := by
      rw [hlk]
      exact isMaxMult_step h2 v
    have h3 := ih (p ++ [v]) (assocSet v ((assocLookup v counts).getD 0 + 1) counts)
      (max M ((assocLookup v counts).getD 0 + 1)) step1 step2
    rw [← List.append_cons] at h3
    exact h3

theorem modeScan_full (values : List ℚ) :
    CountsInv values (modeScan values [] 0).1 ∧
      IsMaxMult values (modeScan values [] 0).2 := by
  have h := modeScan_inv values [] [] 0 ⟨by simp, by simp⟩ ⟨by simp, Or.inl rfl⟩
  simpa using h

theorem maxMult_count_iff {values : List ℚ} {M : ℕ} (hM : IsMaxMult values M)
    {x : ℚ} (hx : x ∈ values) :
    values.count x = M ↔ ∀ y ∈ values, values.count y ≤ values.count x := by
  obtain ⟨hb, hat⟩ := hM
  constructor
  · intro h y _
    rw [h]
    exact hb y
  · intro h
    rcases hat with h0 | ⟨z, hz, hcz⟩
    · have h1 : values.count x ≤ 0 := h0 ▸ hb x
      have h2 : 0 < values.count x := List.count_pos_iff.mpr hx
      omega
    · exact le_antisymm (hb x) (hcz ▸ h z hz)

theorem maxMult_one_iff {values : List ℚ} {M : ℕ} (hM : IsMaxMult values M)
    (hne : values ≠ []) : M = 1 ↔ values.Nodup := by
  obtain ⟨hb, hat⟩ := hM
  constructor
  · intro h1
    rw [List.nodup_iff_count_le_one]
    intro a
    exact h1 ▸ hb a
  · intro hnd
    obtain ⟨y, hy⟩ := List.exists_mem_of_ne_nil values hne
    rcases hat with h0 | ⟨z, hz, hcz⟩
    · have hy1 := hb y
      have hy2 := List.count_pos_iff.mpr hy
      omega
    · rw [← hcz]
      exact List.count_eq_one_of_mem hnd hz

/-! ## Claim theorem C6 -/

/-- C6: `calculateMode` returns exactly the values achieving the maximum
occurrence count, sorted ascending and without duplicates; it returns `[]`
when every value occurs exactly once and there is more than one value; and a
single-element dataset yields that element as its own mode. -/
theorem calculateMode_spec :
    (∀ values : List ℚ,
        (calculateMode values).Sorted (· ≤ ·) ∧ (calculateMode values).Nodup) ∧
    (∀ values : List ℚ, ∀ x : ℚ,
        x ∈ calculateMode values ↔
          (x ∈ values ∧ (∀ y ∈ values, values.count y ≤ values.count x) ∧
            ¬(values.Nodup ∧ 1 < values.length))) ∧
    (∀ values : List ℚ, values.Nodup → 1 < values.length → calculateMode values = []) ∧
    (∀ v : ℚ, calculateMode [v] = [v]) ∧
    calculateMode [1, 2, 2, 3] = [2] := by
  have hshape : ∀ values : List ℚ,
      (calculateMode values).Sorted (· ≤ ·) ∧ (calculateMode values).Nodup := by
    intro values
    rw [calculateMode]
    split_ifs with h1 h2
    · exact ⟨List.sorted_nil, List.nodup_nil⟩
    · exact ⟨List.sorted_nil, List.nodup_nil⟩
    · obtain ⟨⟨hnd, _⟩, _⟩ := modeScan_full values
      rw [sortAsc]
      refine ⟨List.sorted_insertionSort _ _, ?_⟩
      rw [(List.perm_insertionSort _ _).nodup_iff]
      exact List.Nodup.sublist (List.Sublist.map Prod.fst (List.filter_sublist _)) hnd
  have hmem : ∀ values : List ℚ, ∀ x : ℚ,
      x ∈ calculateMode values ↔
        (x ∈ values ∧ (∀ y ∈ values, values.count y ≤ values.count x) ∧
          ¬(values.Nodup ∧ 1 < values.length)) := by
    intro values x
    by_cases hemp : values = []
    · subst hemp
      simp [calculateMode]
    obtain ⟨⟨hnd, hcounts⟩, hmax⟩ := modeScan_full values
    rw [calculateMode, if_neg hemp]
    split_ifs with hsp
    · have hnodup : values.Nodup ∧ 1 < values.length :=
        ⟨(maxMult_one_iff hmax hemp).mp hsp.1, hsp.2⟩
      simp [hnodup]
    · have hiff : x ∈ sortAsc ((((modeScan values [] 0).1.filter
          (fun e => e.2 = (modeScan values [] 0).2)).map Prod.fst)) ↔
          (x ∈ values ∧ values.count x = (modeScan values [] 0).2) := by
        rw [sortAsc, (List.perm_insertionSort _ _).mem_iff]
        simp only [List.mem_map, List.mem_filter, decide_eq_true_eq]
        constructor
        · rintro ⟨⟨a, b⟩, ⟨hin, hb⟩, rfl⟩
          obtain ⟨hax, hcnt⟩ := (hcounts a b).mp hin
          exact ⟨hax, by rw [← hcnt]; exact hb⟩
        · rintro ⟨hx, hcnt⟩
          exact ⟨(x, (modeScan values [] 0).2),
            ⟨(hcounts x _).mpr ⟨hx, hcnt.symm⟩, rfl⟩, rfl⟩
      rw [hiff]
      constructor
      · rintro ⟨hx, hcnt⟩
        refine ⟨hx, (maxMult_count_iff hmax hx).mp hcnt, fun hcontra => hsp ?_⟩
        exact ⟨(maxMult_one_iff hmax hemp).mpr hcontra.1, hcontra.2⟩
      · rintro ⟨hx, hcnt, _⟩
        exact ⟨hx, (maxMult_count_iff hmax hx).mpr hcnt⟩
  refine ⟨hshape, hmem, ?_, ?_, ?_⟩
  · intro values hnd hlen
    have hemp : values ≠ [] := by
      intro h
      rw [h] at hlen
      simp at hlen
    obtain ⟨_, hmax⟩ := modeScan_full values
    rw [calculateMode, if_neg hemp,
      if_pos ⟨(maxMult_one_iff hmax hemp).mpr hnd, hlen⟩]
  · intro v
    have h := hmem [v] v
    have hv : v ∈ calculateMode [v] := by
      rw [h]
      refine ⟨by simp, by simp, ?_⟩
      rintro ⟨_, hlen⟩
      simp at hlen
    obtain ⟨hsort, hnodup⟩ := hshape [v]
    have hsub : ∀ x, x ∈ calculateMode [v] → x = v := by
      intro x hx
      have := (hmem [v] x).mp hx
      simpa using this.1
    match hcm : calculateMode [v] with
    | [] => rw [hcm] at hv; simp at hv
    | [a] =>
      rw [hcm] at hsub
      simp [hsub a (by simp)]
    | a :: b :: t =>
      rw [hcm] at hsub hnodup
      have ha := hsub a (by simp)
      have hb := hsub b (by simp)
      rw [ha, hb] at hnodup
      simp at hnodup
  · decide

/-- Witness for C6: a multi-element all-distinct dataset has empty mode. -/
theorem calculateMode_spec_witness : calculateMode [1, 2, 3] = [] :=
  calculateMode_spec.2.2.1 [1, 2, 3] (by decide) (by decide)

/-! ## Claim theorems C1, C2, C5 -/

/-- C1: `evaluate` never propagates an exception: empty or whitespace-only
input yields the failure `"Empty expression"` (for every oracle, i.e. before
the evaluator is ever consulted); any exception thrown by the evaluator is
converted by `getUserFriendlyError`, which maps a message containing one of
the five known substrings to its fixed translation, an unmatched message
longer than 30 characters to `"Syntax Error"`, and any other message to
itself. -/
theorem evaluate_error_handling :
    ∀ (oracle : EvalOracle) (fmt : ℚ → String) (u : AngleUnit) (s : String),
      (s.data.all Char.isWhitespace = true →
        evaluateM oracle fmt s u = .failure "Empty expression") ∧
      (∀ msg : String, s.data.all Char.isWhitespace = false →
        oracle (transformForAngleUnit (preprocessExpression s) u) (scopeFor u) =
          .error msg →
        evaluateM oracle fmt s u = .failure (getUserFriendlyError msg)) ∧
      (∀ msg : String, jsIncludes msg "Undefined function" = true →
        getUserFriendlyError msg = "Unknown function") ∧
      (∀ msg : String, jsIncludes msg "Undefined function" = false →
        jsIncludes msg "Unexpected end of expression" = true →
        getUserFriendlyError msg = "Incomplete expression") ∧
      (∀ msg : String, jsIncludes msg "Undefined function" = false →
        jsIncludes msg "Unexpected end of expression" = false →
        jsIncludes msg "Value expected" = true →
        getUserFriendlyError msg = "Missing value") ∧
      (∀ msg : String, jsIncludes msg "Undefined function" = false →
        jsIncludes msg "Unexpected end of expression" = false →
        jsIncludes msg "Value expected" = false →
        jsIncludes msg "Parenthesis ) expected" = true →
        getUserFriendlyError msg = "Missing )") ∧
      (∀ msg : String, jsIncludes msg "Undefined function" = false →
        jsIncludes msg "Unexpected end of expression" = false →
        jsIncludes msg "Value expected" = false →
        jsIncludes msg "Parenthesis ) expected" = false →
        jsIncludes msg "Cannot divide by zero" = true →
        getUserFriendlyError msg = "Divide by zero") ∧
      (∀ msg : String, (∀ e ∈ errorMessages, jsIncludes msg e.1 = false) →
        30 < msg.length → getUserFriendlyError msg = "Syntax Error") ∧
      (∀ msg : String, (∀ e ∈ errorMessages, jsIncludes msg e.1 = false) →
        msg.length ≤ 30 → getUserFriendlyError msg = msg) := by
  intro oracle fmt u s
  have hfind_none : ∀ msg : String, (∀ e ∈ errorMessages, jsIncludes msg e.1 = false) →
      errorMessages.find? (fun e => jsIncludes msg e.1) = none := by
    intro msg h
    rw [List.find?_eq_none]
    intro e he
    simp [h e he]
  refine ⟨?_, ?_, ?_, ?_, ?_, ?_, ?_, ?_, ?_⟩
  · intro h
    rw [evaluateM, if_pos h]
  · intro msg hws horacle
    rw [evaluateM, if_neg (by simp [hws]), horacle]
  · intro msg h1
    simp [getUserFriendlyError, errorMessages, List.find?, h1]
  · intro msg h1 h2
    simp [getUserFriendlyError, errorMessages, List.find?, h1, h2]
  · intro msg h1 h2 h3
    simp [getUserFriendlyError, errorMessages, List.find?, h1, h2, h3]
  · intro msg h1 h2 h3 h4
    simp [getUserFriendlyError, errorMessages, List.find?, h1, h2, h3, h4]
  · intro msg h1 h2 h3 h4 h5
    simp [getUserFriendlyError, errorMessages, List.find?, h1, h2, h3, h4, h5]
  · intro msg hnone hlen
    rw [getUserFriendlyError, hfind_none msg hnone]
    simp [hlen]
  · intro msg hnone hlen
    rw [getUserFriendlyError, hfind_none msg hnone]
    simp [Nat.not_lt.mpr hlen]

/-- Witness for C1: a throwing oracle is converted to the table
translation. -/
theorem evaluate_error_handling_witness :
    evaluateM throwOracle fmt0 "q" .rad = .failure "Unknown function" := by
  have h := evaluate_error_handling throwOracle fmt0 .rad "q"
  have h2 := h.2.1 "Undefined function foo" (by decide) rfl
  have h3 := h.2.2.1 "Undefined function foo" (by decide)
  rw [h3] at h2
  exact h2

/-- C2: in degree mode `evaluate` installs the override scope in which
`sin`/`cos`/`tan` convert their argument from degrees to radians (via
`degreesToRadians x = x·π/180`) and `asin`/`acos`/`atan` convert the radian
result back to degrees (via `radiansToDegrees x = x·180/π`); in radian mode
no overrides are installed.  Consequently the degree-mode `sin` of `90` is
exactly `1`, the native radian `sin` of `π/2` is exactly `1`, and the
degree-mode `asin` of `1` is exactly `90`. -/
theorem evaluate_angle_overrides :
    (∀ x : ℝ, degreesToRadians x = x * (Real.pi / 180)) ∧
    (∀ x : ℝ, radiansToDegrees x = x * (180 / Real.pi)) ∧
    scopeFor .rad = [] ∧
    scopeFor .deg = degScope ∧
    degScope.map Prod.fst = ["sin", "cos", "tan", "asin", "acos", "atan"] ∧
    (∀ x : ℝ, scopeApp degScope "sin" x = Real.sin (degreesToRadians x)) ∧
    (∀ x : ℝ, scopeApp degScope "cos" x = Real.cos (degreesToRadians x)) ∧
    (∀ x : ℝ, scopeApp degScope "tan" x = Real.tan (degreesToRadians x)) ∧
    (∀ x : ℝ, scopeApp degScope "asin" x = radiansToDegrees (Real.arcsin x)) ∧
    (∀ x : ℝ, scopeApp degScope "acos" x = radiansToDegrees (Real.arccos x)) ∧
    (∀ x : ℝ, scopeApp degScope "atan" x = radiansToDegrees (Real.arctan x)) ∧
    scopeApp degScope "sin" 90 = 1 ∧
    Real.sin (Real.pi / 2) = 1 ∧
    scopeApp degScope "asin" 1 = 90 ∧
    evaluateM spyOracle fmt0 "1" .deg =
      .success (.strR "sin,cos,tan,asin,acos,atan") "sin,cos,tan,asin,acos,atan" ∧
    evaluateM spyOracle fmt0 "1" .rad = .success (.strR "") "" := by
  refine ⟨fun x => rfl, fun x => rfl, rfl, rfl, rfl,
    fun x => rfl, fun x => rfl, fun x => rfl, fun x => rfl, fun x => rfl, fun x => rfl,
    ?_, Real.sin_pi_div_two, ?_, rfl, rfl⟩
  · show Real.sin (degreesToRadians 90) = 1
    rw [degreesToRadians, show (90 : ℝ) * (Real.pi / 180) = Real.pi / 2 by ring]
    exact Real.sin_pi_div_two
  · show radiansToDegrees (Real.arcsin 1) = 90
    rw [Real.arcsin_one, radiansToDegrees]
    have hpi := Real.pi_ne_zero
    field_simp
    ring

/-- C5: the sampler substitutes every word-boundary, case-insensitive `x`
by the parenthesized literal, evaluates in radians, and returns the value
exactly when evaluation succeeded with a finite number — otherwise the
undefined signal, never an exception; in particular `1/x` at `x = 0`
samples to undefined although `evaluate` itself succeeds with
`Infinity`. -/
theorem evaluateFunction_safe :
    (∀ (oracle : EvalOracle) (fmt : ℚ → String) (expr : String) (x q : ℚ)
        (dv : String),
        evaluateM oracle fmt (substituteX expr x) .rad =
          .success (.numR (.fin q)) dv →
        evaluateFunction oracle fmt expr x = some q) ∧
    (∀ (oracle : EvalOracle) (fmt : ℚ → String) (expr : String) (x : ℚ),
        (∀ (q : ℚ) (dv : String),
          evaluateM oracle fmt (substituteX expr x) .rad ≠
            .success (.numR (.fin q)) dv) →
        evaluateFunction oracle fmt expr x = none) ∧
    substituteX "1/x" 0 = "1/(0)" ∧
    substituteX "x*exp(x)" 2 = "(2)*exp((2))" ∧
    substituteX "X+1" 3 = "(3)+1" ∧
    substituteX "3x" 7 = "3x" ∧
    (∀ (oracle : EvalOracle) (fmt : ℚ → String),
        oracle "1/(0)" [] = .ok (.num .posInf) →
        evaluateFunction oracle fmt "1/x" 0 = none ∧
        evaluateM oracle fmt "1/(0)" .rad =
          .success (.numR .posInf) "Infinity") := by
  refine ⟨?_, ?_, rfl, rfl, rfl, rfl, ?_⟩
  · intro oracle fmt expr x q dv h
    unfold evaluateFunction
    rw [h]
  · intro oracle fmt expr x h
    unfold evaluateFunction
    cases hres : evaluateM oracle fmt (substituteX expr x) .rad with
    | failure e => rfl
    | success v dv =>
      cases v with
      | strR t => rfl
      | numR n =>
        cases n with
        | fin q => exact absurd hres (h q dv)
        | posInf => rfl
        | negInf => rfl
        | nan => rfl
  · intro oracle fmt h
    have hm : evaluateM oracle fmt "1/(0)" .rad =
        .success (.numR .posInf) "Infinity" := by
      rw [evaluateM, if_neg (by decide),
        show transformForAngleUnit (preprocessExpression "1/(0)") .rad = "1/(0)" from rfl,
        show scopeFor .rad = [] from rfl, h]
      rfl
    refine ⟨?_, hm⟩
    unfold evaluateFunction
    rw [show substituteX "1/x" 0 = "1/(0)" from rfl, hm]

/-- Witness for C5: sampling `1/x` at zero with the division oracle. -/
theorem evaluateFunction_safe_witness :
    evaluateFunction div0Oracle fmt0 "1/x" 0 = none :=
  (evaluateFunction_safe.2.2.2.2.2.2 div0Oracle fmt0 rfl).1

/-! ## Helper lemma: the implicit-multiplication scan is the per-position
rule -/

theorem implicitMultPass_positional (suf : List Char) : ∀ pre : List Char,
    implicitMultPass pre.reverse suf =
      (List.range suf.length).flatMap (fun i =>
        (suf.getD i ' ') ::
          (if (suf.getD i ' ').isDigit && lookaheadLP (suf.drop (i + 1)) &&
              !(endsWithLog ((pre ++ suf).take (pre.length + i)))
           then ['*'] else [])) := by
  induction suf with
  | nil =>
    intro pre
    simp [implicitMultPass]
  | cons c rest ih =>
    intro pre
    have hfun : ∀ i : ℕ,
        (((c :: rest).getD (i + 1) ' ') ::
          (if ((c :: rest).getD (i + 1) ' ').isDigit &&
              lookaheadLP ((c :: rest).drop (i + 1 + 1)) &&
              !(endsWithLog ((pre ++ c :: rest).take (pre.length + (i + 1))))
           then ['*'] else [])) =
        ((rest.getD i ' ') ::
          (if (rest.getD i ' ').isDigit && lookaheadLP (rest.drop (i + 1)) &&
              !(endsWithLog (((pre ++ [c]) ++ rest).take ((pre ++ [c]).length + i)))
           then ['*'] else [])) := by
      intro i
      have h1 : pre ++ c :: rest = (pre ++ [c]) ++ rest := by simp
      have h2 : pre.length + (i + 1) = (pre ++ [c]).length + i := by
        simp
        omega
      rw [List.getD_cons_succ, List.drop_succ_cons, h1, h2]
    have htail : ((List.range rest.length).map Nat.succ).flatMap
        (fun i => ((c :: rest).getD i ' ') ::
          (if ((c :: rest).getD i ' ').isDigit &&
              lookaheadLP ((c :: rest).drop (i + 1)) &&
              !(endsWithLog ((pre ++ c :: rest).take (pre.length + i)))
           then ['*'] else [])) =
        implicitMultPass (pre ++ [c]).reverse rest := by
      rw [List.flatMap_map, ih (pre ++ [c])]
      exact congrArg _ (funext hfun)
    rw [implicitMultPass, List.reverse_reverse,
      show c :: pre.reverse = (pre ++ [c]).reverse by simp]
    rw [List.length_cons, List.range_succ_eq_map, List.flatMap_cons, htail]
    have hpre0 : (pre ++ c :: rest).take pre.length = pre :=
      List.take_left' rfl
    simp only [List.getD_cons_zero, List.drop_succ_cons, List.drop_zero,
      Nat.add_zero, Nat.zero_add, hpre0]
    by_cases hc : (c.isDigit && lookaheadLP rest && !(endsWithLog pre)) = true
    · rw [if_pos hc, if_pos hc]
      rfl
    · rw [if_neg hc, if_neg hc]
      rfl

/-! ## Claim theorem C4 -/

/-- C4: the normalizer inserts `*` after exactly those digits that are
followed (through optional whitespace) by a letter or an opening
parenthesis and whose 4-character lookbehind window does not end in `log`
or `log1`; so `2π`, `2(3+4)`, `3sin(0)` (and the whitespace form) gain a
`*` while `log10(` and `log2(` are never split. -/
theorem implicit_multiplication_rule :
    (∀ s : List Char, implicitMultPass [] s = implicitMultSpec s) ∧
    preprocessExpression "2π" = "2*pi" ∧
    preprocessExpression "2(3+4)" = "2*(3+4)" ∧
    preprocessExpression "3sin(0)" = "3*sin(0)" ∧
    preprocessExpression "2 sin(0)" = "2* sin(0)" ∧
    preprocessExpression "log10(5)" = "log10(5)" ∧
    preprocessExpression "log2(8)" = "log2(8)" := by
  refine ⟨?_, rfl, rfl, rfl, rfl, rfl, rfl⟩
  intro s
  have h := implicitMultPass_positional s []
  simpa [implicitMultSpec] using h

/-! ## Helper lemmas: replacement scans over chunked text -/

theorem ciEq_refl (ci : Bool) (a : Char) : ciEq ci a a = true := by
  cases ci <;> simp [ciEq]

theorem matchPat_self (ci : Bool) : ∀ (ps rest : List Char),
    matchPat ci ps (ps ++ rest) = true := by
  intro ps
  induction ps with
  | nil => intro rest; rfl
  | cons a as ih =>
    intro rest
    rw [List.cons_append, matchPat, ciEq_refl, ih]
    rfl

theorem matchPat_false_of_missWithin (ci : Bool) : ∀ (ps cs rest : List Char),
    patMissWithin ci ps cs = true → matchPat ci ps (cs ++ rest) = false := by
  intro ps
  induction ps with
  | nil => intro cs rest h; simp [patMissWithin] at h
  | cons p' ps' ih =>
    intro cs rest h
    cases cs with
    | nil => simp [patMissWithin] at h
    | cons c' cs' =>
      rw [patMissWithin] at h
      by_cases he : ciEq ci p' c' = true
      · rw [if_pos he] at h
        rw [List.cons_append, matchPat, ih cs' rest h]
        simp
      · have he' : ciEq ci p' c' = false := by
          rwa [Bool.not_eq_true] at he
        rw [List.cons_append, matchPat, he']
        simp

theorem lastPrev_cons (prev : Option Char) (c : Char) (cs : List Char) :
    lastPrev prev (c :: cs) = lastPrev (some c) cs := by
  cases cs with
  | nil => rfl
  | cons d ds =>
    obtain ⟨e, he⟩ : ∃ e, (d :: ds).getLast? = some e := by
      cases hg : (d :: ds).getLast? with
      | some e => exact ⟨e, rfl⟩
      | none => simp at hg
    simp [lastPrev, List.getLast?_cons_cons, he]

theorem jsReplaceA_skip_consume (ci lb rb : Bool) (p : Char) (ps rep : List Char) :
    ∀ (chunk : List Char) (prev : Option Char) (rest : List Char),
      jsReplaceA ci lb rb p ps rep chunk.length prev (chunk ++ rest) =
        jsReplaceA ci lb rb p ps rep 0 (lastPrev prev chunk) rest := by
  intro chunk
  induction chunk with
  | nil => intro prev rest; rfl
  | cons c cs ih =>
    intro prev rest
    rw [List.cons_append, List.length_cons]
    rw [show jsReplaceA ci lb rb p ps rep (cs.length + 1) prev (c :: (cs ++ rest)) =
      jsReplaceA ci lb rb p ps rep cs.length (some c) (cs ++ rest) from rfl]
    rw [ih (some c) rest, lastPrev_cons]

theorem jsReplaceA_chunk_miss (ci lb rb : Bool) (p : Char) (ps rep : List Char) :
    ∀ (chunk : List Char) (prev : Option Char) (rest : List Char),
      chunkMiss ci p ps chunk = true →
      jsReplaceA ci lb rb p ps rep 0 prev (chunk ++ rest) =
        chunk ++ jsReplaceA ci lb rb p ps rep 0 (lastPrev prev chunk) rest := by
  intro chunk
  induction chunk with
  | nil => intro prev rest _; rfl
  | cons c cs ih =>
    intro prev rest h
    rw [chunkMiss, Bool.and_eq_true] at h
    obtain ⟨h1, h2⟩ := h
    have hcond : (ciEq ci p c && matchPat ci ps (cs ++ rest) && lbOK lb prev &&
        rbOK rb ((cs ++ rest).drop ps.length)) = false := by
      rw [headMiss] at h1
      by_cases he : ciEq ci p c = true
      · rw [he] at h1
        simp only [Bool.not_true, Bool.false_or] at h1
        rw [matchPat_false_of_missWithin ci ps cs rest h1, he]
        simp
      · have he' : ciEq ci p c = false := by rwa [Bool.not_eq_true] at he
        rw [he']
        simp
    rw [List.cons_append]
    rw [show jsReplaceA ci lb rb p ps rep 0 prev (c :: (cs ++ rest)) =
      if (ciEq ci p c && matchPat ci ps (cs ++ rest) && lbOK lb prev &&
          rbOK rb ((cs ++ rest).drop ps.length)) = true then
        rep ++ jsReplaceA ci lb rb p ps rep ps.length (some c) (cs ++ rest)
      else c :: jsReplaceA ci lb rb p ps rep 0 (some c) (cs ++ rest) from rfl]
    rw [if_neg (by simp [hcond])]
    rw [ih (some c) rest h2, lastPrev_cons]
    rfl

theorem jsReplaceA_hit (ci lb : Bool) (p : Char) (ps rep : List Char)
    (prev : Option Char) (rest : List Char) (hb : lbOK lb prev = true) :
    jsReplaceA ci lb false p ps rep 0 prev ((p :: ps) ++ rest) =
      rep ++ jsReplaceA ci lb false p ps rep 0 (lastPrev (some p) ps) rest := by
  rw [List.cons_append]
  rw [show jsReplaceA ci lb false p ps rep 0 prev (p :: (ps ++ rest)) =
    if (ciEq ci p p && matchPat ci ps (ps ++ rest) && lbOK lb prev &&
        rbOK false ((ps ++ rest).drop ps.length)) = true then
      rep ++ jsReplaceA ci lb false p ps rep ps.length (some p) (ps ++ rest)
    else p :: jsReplaceA ci lb false p ps rep 0 (some p) (ps ++ rest) from rfl]
  rw [if_pos (by simp [ciEq_refl, matchPat_self, hb, rbOK])]
  rw [jsReplaceA_skip_consume]

theorem lbOK_any (lb : Bool) {prev : Option Char} (h : lbOK true prev = true) :
    lbOK lb prev = true := by
  cases lb
  · rfl
  · exact h

theorem sep_chunkMiss {c p : Char} {ps : List Char} (hps : ps ≠ [])
    (hp : isWordChar p = true ∨ p = '_') (hc : goodTok (.sep c) = true) :
    chunkMiss false p ps [c] = true := by
  simp only [goodTok, Bool.and_eq_true, Bool.not_eq_true', decide_eq_true_eq] at hc
  have hpc : p ≠ c := by
    rcases hp with h | h
    · intro hcp
      rw [hcp, hc.1] at h
      exact Bool.false_ne_true h
    · intro hcp
      exact hc.2 (hcp.symm.trans h)
  cases ps with
  | nil => exact absurd rfl hps
  | cons a as =>
    simp [chunkMiss, headMiss, patMissWithin, ciEq, hpc]

theorem lastPrev_good (t : LogTok) (prev : Option Char)
    (ht : goodTok t = true) (_hprev : lbOK true prev = true) :
    lbOK true (lastPrev prev (renderTok t)) = true := by
  cases t with
  | sep c =>
    simp only [goodTok, Bool.and_eq_true, Bool.not_eq_true'] at ht
    simp [renderTok, lastPrev, lbOK, ht.1]
  | tln => rfl
  | tlog10 => rfl
  | tlog2 => rfl
  | tlog => rfl
  | tnat => rfl
  | tl10p => rfl
  | tl2p => rfl

theorem pass_toks (lb : Bool) (p : Char) (ps rep : List Char) (m : LogTok → LogTok)
    (hafterhit : lbOK true (lastPrev (some p) ps) = true)
    (hcase : ∀ t : LogTok, goodTok t = true →
      (renderTok t = p :: ps ∧ renderTok (m t) = rep) ∨
      (chunkMiss false p ps (renderTok t) = true ∧ m t = t)) :
    ∀ (ts : List LogTok) (prev : Option Char),
      (∀ t ∈ ts, goodTok t = true) → lbOK true prev = true →
      jsReplaceA false lb false p ps rep 0 prev (renderToks ts) =
        renderToks (ts.map m) := by
  intro ts
  induction ts with
  | nil => intro prev _ _; rfl
  | cons t ts' ih =>
    intro prev hts hprev
    have ht : goodTok t = true := hts t (List.mem_cons_self t ts')
    have hts' : ∀ u ∈ ts', goodTok u = true :=
      fun u hu => hts u (List.mem_cons_of_mem t hu)
    rw [show renderToks (t :: ts') = renderTok t ++ renderToks ts' from rfl]
    rcases hcase t ht with ⟨hrt, hrm⟩ | ⟨hmiss, hmt⟩
    · rw [hrt, jsReplaceA_hit false lb p ps rep prev (renderToks ts') (lbOK_any lb hprev)]
      rw [ih (lastPrev (some p) ps) hts' hafterhit]
      rw [List.map_cons,
        show renderToks (m t :: ts'.map m) = renderTok (m t) ++ renderToks (ts'.map m)
          from rfl, hrm]
    · rw [jsReplaceA_chunk_miss false lb false p ps rep (renderTok t) prev
        (renderToks ts') hmiss]
      rw [ih (lastPrev prev (renderTok t)) hts' (lastPrev_good t prev ht hprev)]
      rw [List.map_cons, hmt,
        show renderToks (t :: ts'.map m) = renderTok t ++ renderToks (ts'.map m)
          from rfl]

/-! ## The seven logarithm passes on token sequences -/

theorem protectLn_toks (ts : List LogTok) (h : ∀ t ∈ ts, goodTok t = true) :
    protectLn (renderToks ts) = renderToks (ts.map mProtectLn) := by
  exact pass_toks true 'l' ['n', '('] "__NATLOG__(".data mProtectLn (by decide)
    (fun t ht => by
      cases t with
      | tln => exact Or.inl ⟨rfl, rfl⟩
      | tlog10 => exact Or.inr ⟨by decide, rfl⟩
      | tlog2 => exact Or.inr ⟨by decide, rfl⟩
      | tlog => exact Or.inr ⟨by decide, rfl⟩
      | tnat => exact Or.inr ⟨by decide, rfl⟩
      | tl10p => exact Or.inr ⟨by decide, rfl⟩
      | tl2p => exact Or.inr ⟨by decide, rfl⟩
      | sep c => exact Or.inr ⟨sep_chunkMiss (by decide) (Or.inl (by decide)) ht, rfl⟩)
    ts none h rfl

theorem protectLog10_toks (ts : List LogTok) (h : ∀ t ∈ ts, goodTok t = true) :
    protectLog10 (renderToks ts) = renderToks (ts.map mProtectLog10) := by
  exact pass_toks true 'l' ['o', 'g', '1', '0', '('] "__LOG10__(".data mProtectLog10
    (by decide)
    (fun t ht => by
      cases t with
      | tlog10 => exact Or.inl ⟨rfl, rfl⟩
      | tln => exact Or.inr ⟨by decide, rfl⟩
      | tlog2 => exact Or.inr ⟨by decide, rfl⟩
      | tlog => exact Or.inr ⟨by decide, rfl⟩
      | tnat => exact Or.inr ⟨by decide, rfl⟩
      | tl10p => exact Or.inr ⟨by decide, rfl⟩
      | tl2p => exact Or.inr ⟨by decide, rfl⟩
      | sep c => exact Or.inr ⟨sep_chunkMiss (by decide) (Or.inl (by decide)) ht, rfl⟩)
    ts none h rfl

theorem protectLog2_toks (ts : List LogTok) (h : ∀ t ∈ ts, goodTok t = true) :
    protectLog2 (renderToks ts) = renderToks (ts.map mProtectLog2) := by
  exact pass_toks true 'l' ['o', 'g', '2', '('] "__LOG2__(".data mProtectLog2
    (by decide)
    (fun t ht => by
      cases t with
      | tlog2 => exact Or.inl ⟨rfl, rfl⟩
      | tln => exact Or.inr ⟨by decide, rfl⟩
      | tlog10 => exact Or.inr ⟨by decide, rfl⟩
      | tlog => exact Or.inr ⟨by decide, rfl⟩
      | tnat => exact Or.inr ⟨by decide, rfl⟩
      | tl10p => exact Or.inr ⟨by decide, rfl⟩
      | tl2p => exact Or.inr ⟨by decide, rfl⟩
      | sep c => exact Or.inr ⟨sep_chunkMiss (by decide) (Or.inl (by decide)) ht, rfl⟩)
    ts none h rfl

theorem renameLog_toks (ts : List LogTok) (h : ∀ t ∈ ts, goodTok t = true) :
    renameLog (renderToks ts) = renderToks (ts.map mRenameLog) := by
  exact pass_toks true 'l' ['o', 'g', '('] "log10(".data mRenameLog (by decide)
    (fun t ht => by
      cases t with
      | tlog => exact Or.inl ⟨rfl, rfl⟩
      | tln => exact Or.inr ⟨by decide, rfl⟩
      | tlog10 => exact Or.inr ⟨by decide, rfl⟩
      | tlog2 => exact Or.inr ⟨by decide, rfl⟩
      | tnat => exact Or.inr ⟨by decide, rfl⟩
      | tl10p => exact Or.inr ⟨by decide, rfl⟩
      | tl2p => exact Or.inr ⟨by decide, rfl⟩
      | sep c => exact Or.inr ⟨sep_chunkMiss (by decide) (Or.inl (by decide)) ht, rfl⟩)
    ts none h rfl

theorem restoreNatlog_toks (ts : List LogTok) (h : ∀ t ∈ ts, goodTok t = true) :
    restoreNatlog (renderToks ts) = renderToks (ts.map mRestoreNatlog) := by
  exact pass_toks false '_' "_NATLOG__(".data "log(".data mRestoreNatlog (by decide)
    (fun t ht => by
      cases t with
      | tnat => exact Or.inl ⟨rfl, rfl⟩
      | tln => exact Or.inr ⟨by decide, rfl⟩
      | tlog10 => exact Or.inr ⟨by decide, rfl⟩
      | tlog2 => exact Or.inr ⟨by decide, rfl⟩
      | tlog => exact Or.inr ⟨by decide, rfl⟩
      | tl10p => exact Or.inr ⟨by decide, rfl⟩
      | tl2p => exact Or.inr ⟨by decide, rfl⟩
      | sep c => exact Or.inr ⟨sep_chunkMiss (by decide) (Or.inr rfl) ht, rfl⟩)
    ts none h rfl

theorem restoreLog10_toks (ts : List LogTok) (h : ∀ t ∈ ts, goodTok t = true) :
    restoreLog10 (renderToks ts) = renderToks (ts.map mRestoreLog10) := by
  exact pass_toks false '_' "_LOG10__(".data "log10(".data mRestoreLog10 (by decide)
    (fun t ht => by
      cases t with
      | tl10p => exact Or.inl ⟨rfl, rfl⟩
      | tln => exact Or.inr ⟨by decide, rfl⟩
      | tlog10 => exact Or.inr ⟨by decide, rfl⟩
      | tlog2 => exact Or.inr ⟨by decide, rfl⟩
      | tlog => exact Or.inr ⟨by decide, rfl⟩
      | tnat => exact Or.inr ⟨by decide, rfl⟩
      | tl2p => exact Or.inr ⟨by decide, rfl⟩
      | sep c => exact Or.inr ⟨sep_chunkMiss (by decide) (Or.inr rfl) ht, rfl⟩)
    ts none h rfl

theorem restoreLog2_toks (ts : List LogTok) (h : ∀ t ∈ ts, goodTok t = true) :
    restoreLog2 (renderToks ts) = renderToks (ts.map mRestoreLog2) := by
  exact pass_toks false '_' "_LOG2__(".data "log2(".data mRestoreLog2 (by decide)
    (fun t ht => by
      cases t with
      | tl2p => exact Or.inl ⟨rfl, rfl⟩
      | tln => exact Or.inr ⟨by decide, rfl⟩
      | tlog10 => exact Or.inr ⟨by decide, rfl⟩
      | tlog2 => exact Or.inr ⟨by decide, rfl⟩
      | tlog => exact Or.inr ⟨by decide, rfl⟩
      | tnat => exact Or.inr ⟨by decide, rfl⟩
      | tl10p => exact Or.inr ⟨by decide, rfl⟩
      | sep c => exact Or.inr ⟨sep_chunkMiss (by decide) (Or.inr rfl) ht, rfl⟩)
    ts none h rfl

theorem mProtectLn_good : ∀ t, goodTok t = true → goodTok (mProtectLn t) = true := by
  intro t ht
  cases t <;> exact ht

theorem mProtectLog10_good : ∀ t, goodTok t = true → goodTok (mProtectLog10 t) = true := by
  intro t ht
  cases t <;> exact ht

theorem mProtectLog2_good : ∀ t, goodTok t = true → goodTok (mProtectLog2 t) = true := by
  intro t ht
  cases t <;> exact ht

theorem mRenameLog_good : ∀ t, goodTok t = true → goodTok (mRenameLog t) = true := by
  intro t ht
  cases t <;> exact ht

theorem mRestoreNatlog_good : ∀ t, goodTok t = true → goodTok (mRestoreNatlog t) = true := by
  intro t ht
  cases t <;> exact ht

theorem mRestoreLog10_good : ∀ t, goodTok t = true → goodTok (mRestoreLog10 t) = true := by
  intro t ht
  cases t <;> exact ht

theorem logPasses_toks (ts : List LogTok) (h : ∀ t ∈ ts, goodTok t = true) :
    logPasses (renderToks ts) =
      renderToks (((((((ts.map mProtectLn).map mProtectLog10).map
        mProtectLog2).map mRenameLog).map mRestoreNatlog).map
        mRestoreLog10).map mRestoreLog2) := by
  have h1 : ∀ t ∈ ts.map mProtectLn, goodTok t = true := by
    intro t ht
    obtain ⟨u, hu, rfl⟩ := List.mem_map.mp ht
    exact mProtectLn_good u (h u hu)
  have h2 : ∀ t ∈ (ts.map mProtectLn).map mProtectLog10, goodTok t = true := by
    intro t ht
    obtain ⟨u, hu, rfl⟩ := List.mem_map.mp ht
    exact mProtectLog10_good u (h1 u hu)
  have h3 : ∀ t ∈ ((ts.map mProtectLn).map mProtectLog10).map mProtectLog2,
      goodTok t = true := by
    intro t ht
    obtain ⟨u, hu, rfl⟩ := List.mem_map.mp ht
    exact mProtectLog2_good u (h2 u hu)
  have h4 : ∀ t ∈ (((ts.map mProtectLn).map mProtectLog10).map mProtectLog2).map
      mRenameLog, goodTok t = true := by
    intro t ht
    obtain ⟨u, hu, rfl⟩ := List.mem_map.mp ht
    exact mRenameLog_good u (h3 u hu)
  have h5 : ∀ t ∈ ((((ts.map mProtectLn).map mProtectLog10).map mProtectLog2).map
      mRenameLog).map mRestoreNatlog, goodTok t = true := by
    intro t ht
    obtain ⟨u, hu, rfl⟩ := List.mem_map.mp ht
    exact mRestoreNatlog_good u (h4 u hu)
  have h6 : ∀ t ∈ (((((ts.map mProtectLn).map mProtectLog10).map mProtectLog2).map
      mRenameLog).map mRestoreNatlog).map mRestoreLog10, goodTok t = true := by
    intro t ht
    obtain ⟨u, hu, rfl⟩ := List.mem_map.mp ht
    exact mRestoreLog10_good u (h5 u hu)
  rw [logPasses, protectLn_toks ts h, protectLog10_toks _ h1, protectLog2_toks _ h2,
    renameLog_toks _ h3, restoreNatlog_toks _ h4, restoreLog10_toks _ h5,
    restoreLog2_toks _ h6]

/-! ## Claim theorem C3 -/

/-- C3: over any sequence of logarithm-call tokens separated by non-word
characters — any number of occurrences, in any order — the protect →
bare-rename → restore sequence sends every user-facing `ln(` to the
evaluator's natural-log name `log(`, every bare `log(` to `log10(`, and
leaves `log10(` and `log2(` unchanged; shown also on a nested concrete
input. -/
theorem log_rewrite_correct (ts : List LogTok) (h : ∀ t ∈ ts, userTok t = true) :
    logPasses (renderToks ts) = renderToks (ts.map logResolve) ∧
    renderTok (logResolve .tln) = "log(".data ∧
    renderTok (logResolve .tlog) = "log10(".data ∧
    renderTok (logResolve .tlog10) = "log10(".data ∧
    renderTok (logResolve .tlog2) = "log2(".data ∧
    logPasses "ln(log(log10(log2(x))))".data =
      "log(log10(log10(log2(x))))".data := by
  refine ⟨?_, rfl, rfl, rfl, rfl, by decide⟩
  have hg : ∀ t ∈ ts, goodTok t = true := by
    intro t ht
    have hu := h t ht
    cases t with
    | tnat => simp [userTok] at hu
    | tl10p => simp [userTok] at hu
    | tl2p => simp [userTok] at hu
    | sep c => exact hu
    | tln => rfl
    | tlog10 => rfl
    | tlog2 => rfl
    | tlog => rfl
  rw [logPasses_toks ts hg]
  simp only [List.map_map]
  rw [show (mRestoreLog2 ∘ mRestoreLog10 ∘ mRestoreNatlog ∘ mRenameLog ∘
      mProtectLog2 ∘ mProtectLog10 ∘ mProtectLn) = logResolve from
    funext fun t => by cases t <;> rfl]

/-- Witness for C3: a mixed token sequence rewritten in one pass. -/
theorem log_rewrite_correct_witness :
    logPasses (renderToks [.tln, .sep ' ', .tlog, .sep '+', .tlog10, .tlog2]) =
      renderToks ([LogTok.tln, .sep ' ', .tlog, .sep '+', .tlog10,
        .tlog2].map logResolve) :=
  (log_rewrite_correct _ (by decide)).1

end MathPWA
